import Mathlib

/-
  Verification development for the prop-firm Monte Carlo simulator
  (`prop_sim.py`).  The simulation core is embedded shallowly:

  * money amounts are exact rationals (the Python floats carry no
    semantics in the claims beyond exact arithmetic);
  * the global NumPy uniform stream `np.random.rand()` is modelled as an
    injected draw family `u : ℕ → ℚ` per trial (`ℕ → ℕ → ℚ` per
    scenario), each draw understood to lie in `[0, 1)`;
  * Python `for` loops with `break` become structural recursion with an
    explicit stop flag;
  * `range(n)` for a non-positive `n` is empty, so loop bounds are `ℕ`
    (a negative bound behaves exactly like `0`);
  * a `ZeroDivisionError` (aggregating with `num_simulations = 0`)
    is modelled by an `Option` result.
-/

/-- Trial status strings of `prop_sim.py`:
`"In Progress"`, `"Passed"`, `"Failed"`, `"Timeout"`. -/
inductive Status where
  | inProgress
  | passed
  | failed
  | timeout
deriving DecidableEq, Repr

/-- The sidebar configuration of `prop_sim.py` (module-level widget
values read by `run_monte_carlo` / `run_visualization_sim`). -/
structure Cfg where
  accountSize : ℚ
  profitTarget : ℚ
  maxDailyDd : ℚ
  maxTotalDd : ℚ
  /-- `trailing_type == "Trailing from High Water Mark"` -/
  trailing : Bool
  winRate : ℚ
  rewardRatio : ℚ
  dailyLimitR : ℚ
  numSimulations : ℕ
  maxDays : ℕ
deriving DecidableEq, Repr

/-- `reward_per_trade = risk_val * reward_ratio` (line 69). -/
def rewardPerTrade (c : Cfg) (riskVal : ℚ) : ℚ :=
  riskVal * c.rewardRatio

/-- `personal_limit_usd = (daily_limit_r * risk_val) if daily_limit_r > 0 else 0`
(line 70). -/
def personalLimitUsd (c : Cfg) (riskVal : ℚ) : ℚ :=
  if c.dailyLimitR > 0 then c.dailyLimitR * riskVal else 0

/-- Mutable per-trial state of the `run_monte_carlo` inner loop
(lines 84-92).  `idx` is the number of random draws consumed so far and
`used` the ghost trace of win/loss classifications, recorded so that
theorems can speak about the executed draw sequence. -/
structure TrialState where
  equity : ℚ
  hwm : ℚ
  ddLimit : ℚ
  status : Status
  maxWin : ℕ
  maxLoss : ℕ
  curWin : ℕ
  curLoss : ℕ
  idx : ℕ
  used : List Bool
deriving DecidableEq, Repr

/-- Lines 84-92: trial-state initialization. -/
def initState (c : Cfg) : TrialState :=
  { equity := c.accountSize
    hwm := c.accountSize
    ddLimit := c.accountSize - c.maxTotalDd
    status := .inProgress
    maxWin := 0, maxLoss := 0, curWin := 0, curLoss := 0
    idx := 0, used := [] }

/-- Lines 100-109: classify the trade, update streak counters and
equity. -/
def applyOutcome (c : Cfg) (riskVal : ℚ) (isWin : Bool) (s : TrialState) :
    TrialState :=
  if isWin then
    { s with
      curWin := s.curWin + 1
      curLoss := 0
      maxWin := max s.maxWin (s.curWin + 1)
      equity := s.equity + rewardPerTrade c riskVal
      idx := s.idx + 1
      used := s.used ++ [true] }
  else
    { s with
      curLoss := s.curLoss + 1
      curWin := 0
      maxLoss := max s.maxLoss (s.curLoss + 1)
      equity := s.equity - riskVal
      idx := s.idx + 1
      used := s.used ++ [false] }

/-- Lines 111-114: high-water-mark update; under Trailing mode the
drawdown floor is recomputed from the new high. -/
def applyHwm (c : Cfg) (s : TrialState) : TrialState :=
  if s.equity > s.hwm then
    { s with
      hwm := s.equity
      ddLimit := if c.trailing then s.equity - c.maxTotalDd else s.ddLimit }
  else s

/-- Lines 116-127: the exit-condition cascade, in source order: total
drawdown, daily drawdown, personal circuit breaker, profit target.  The
returned `Bool` is the trade-loop `break` flag. -/
def checkExits (c : Cfg) (riskVal dailyStart : ℚ) (s : TrialState) :
    TrialState × Bool :=
  if s.equity ≤ s.ddLimit then
    ({ s with status := .failed }, true)
  else if dailyStart - s.equity ≥ c.maxDailyDd then
    ({ s with status := .failed }, true)
  else if personalLimitUsd c riskVal > 0 ∧
      dailyStart - s.equity ≥ personalLimitUsd c riskVal then
    (s, true)
  else if s.equity ≥ c.accountSize + c.profitTarget then
    ({ s with status := .passed }, true)
  else
    (s, false)

/-- One iteration of the trade loop (lines 97-127): draw, classify,
update equity/streaks, update high-water mark, then run the exit
cascade. -/
def tradeStep (c : Cfg) (riskVal dailyStart : ℚ) (u : ℕ → ℚ)
    (s : TrialState) : TrialState × Bool :=
  checkExits c riskVal dailyStart
    (applyHwm c (applyOutcome c riskVal (decide (u s.idx < c.winRate)) s))

/-- The trade loop `for trade in range(trades_day_val)` with its
`break`s. -/
def runTrades (c : Cfg) (riskVal dailyStart : ℚ) (u : ℕ → ℚ) :
    ℕ → TrialState → TrialState
  | 0, s => s
  | n + 1, s =>
    let t := tradeStep c riskVal dailyStart u s
    if t.2 then t.1 else runTrades c riskVal dailyStart u n t.1

/-- One day (lines 95-127): `daily_start_equity = equity`, then the
trade loop. -/
def runDay (c : Cfg) (riskVal : ℚ) (tpd : ℕ) (u : ℕ → ℚ)
    (s : TrialState) : TrialState :=
  runTrades c riskVal s.equity u tpd s

/-- The day loop `for day in range(max_days)` (lines 94-129): runs days
until a terminal status, returning `(day + 1` at the break, final
state`)`; when the loop is exhausted the first component is the number
of days run. -/
def runDays (c : Cfg) (riskVal : ℚ) (tpd : ℕ) (u : ℕ → ℚ) :
    ℕ → TrialState → ℕ × TrialState
  | 0, s => (0, s)
  | n + 1, s =>
    let s' := runDay c riskVal tpd u s
    if s'.status ≠ .inProgress then (1, s')
    else
      let p := runDays c riskVal tpd u n s'
      (p.1 + 1, p.2)

/-- What one trial contributes to the collections of
`run_monte_carlo` (lines 131-150): terminal outcome (`Timeout` when the
day loop exhausted with status still `In Progress`), `day + 1`, final
PnL, and the two max-streak counters.  `used` is the ghost trace of
executed draws. -/
structure TrialRecord where
  outcome : Status
  days : ℕ
  pnl : ℚ
  maxWin : ℕ
  maxLoss : ℕ
  used : List Bool
deriving DecidableEq, Repr

/-- One full trial of `run_monte_carlo` (lines 83-150). -/
def runTrial (c : Cfg) (riskVal : ℚ) (tpd : ℕ) (u : ℕ → ℚ) :
    TrialRecord :=
  let p := runDays c riskVal tpd u c.maxDays (initState c)
  { outcome := if p.2.status = .inProgress then .timeout else p.2.status
    days := p.1
    pnl := p.2.equity - c.accountSize
    maxWin := p.2.maxWin
    maxLoss := p.2.maxLoss
    used := p.2.used }

/-! ### Statistics helpers (`np.percentile`, `np.median`, `round(x, 1)`) -/

/-- `np.percentile(l, p)` with the default linear-interpolation method:
sort ascending, take `h = (n-1)·p/100`, and interpolate between the
order statistics at `⌊h⌋` and `⌊h⌋+1`. -/
def percentileL (p : ℚ) (l : List ℚ) : ℚ :=
  let s := l.insertionSort (· ≤ ·)
  let h : ℚ := ((l.length : ℚ) - 1) * p / 100
  let i : ℕ := (⌊h⌋).toNat
  let lo := s.getD i 0
  let hi := s.getD (i + 1) lo
  lo + (h - (i : ℚ)) * (hi - lo)

/-- `np.median` is the 50th percentile under linear interpolation
(the mean of the two middle order statistics for even length). -/
def medianL (l : List ℚ) : ℚ :=
  percentileL 50 l

/-- Python `round(x, 1)`: one decimal digit, ties to even.  (The
binary-float artifacts of CPython's rounding are abstracted; no claim
touches a rounding boundary.) -/
def pyRound1 (x : ℚ) : ℚ :=
  let y := x * 10
  let n := ⌊y⌋
  let z : ℤ :=
    if y - n > 1 / 2 then n + 1
    else if y - n < 1 / 2 then n
    else if n % 2 = 0 then n else n + 1
  (z : ℚ) / 10

/-! ### The scenario aggregator `run_monte_carlo` (lines 67-198) -/

/-- The dictionary returned by `run_monte_carlo` (lines 174-198),
including the `"Raw Data"` lists. -/
structure ScenarioResult where
  riskUsd : ℚ
  riskPct : ℚ
  tradesPerDay : ℕ
  passRate : ℚ
  failRate : ℚ
  timeoutRate : ℚ
  avgDaysPass : ℚ
  medianDaysPass : ℚ
  avgDaysFail : ℚ
  medianDaysFail : ℚ
  avgMaxWinStreak : ℚ
  avgMaxLossStreak : ℚ
  worstCase95 : ℚ
  rawPnL : List (ℚ × Status)
  rawPassDays : List ℕ
  rawFailDays : List ℕ
  rawWinStreaks : List ℕ
  rawLossStreaks : List ℕ
deriving DecidableEq, Repr

/-- `run_monte_carlo(risk_val, trades_day_val)` (lines 67-198).  The
trial loop appends to the collections in trial order; the statistics
block then reduces them.  With `num_simulations = 0` the mean at line
168 raises `ZeroDivisionError`, modelled as `none`. -/
def runMonteCarlo (c : Cfg) (riskVal : ℚ) (tpd : ℕ) (u : ℕ → ℕ → ℚ) :
    Option ScenarioResult :=
  if c.numSimulations = 0 then none else
  let trials := (List.range c.numSimulations).map
    (fun i => runTrial c riskVal tpd (u i))
  let n : ℚ := (c.numSimulations : ℚ)
  let passTrials := trials.filter (fun t => decide (t.outcome = Status.passed))
  let failTrials := trials.filter (fun t => decide (t.outcome = Status.failed))
  let timeoutTrials := trials.filter
    (fun t => decide (t.outcome ≠ Status.passed ∧ t.outcome ≠ Status.failed))
  let allPassDays : List ℕ := passTrials.map (fun t => t.days)
  let allFailDays : List ℕ := failTrials.map (fun t => t.days)
  let allWinStreaks : List ℕ := trials.map (fun t => t.maxWin)
  let allLossStreaks : List ℕ := trials.map (fun t => t.maxLoss)
  let passCount := passTrials.length
  let failCount := failTrials.length
  let avgDaysPass : ℚ :=
    if 0 < passCount then
      (allPassDays.map (fun d => (d : ℚ))).sum / (passCount : ℚ)
    else 0
  let medianDaysPass : ℚ :=
    if 0 < passCount then medianL (allPassDays.map (fun d => (d : ℚ))) else 0
  let avgDaysFail : ℚ :=
    if 0 < failCount then
      (allFailDays.map (fun d => (d : ℚ))).sum / (failCount : ℚ)
    else 0
  let medianDaysFail : ℚ :=
    if 0 < failCount then medianL (allFailDays.map (fun d => (d : ℚ))) else 0
  some
    { riskUsd := riskVal
      riskPct := riskVal / c.accountSize * 100
      tradesPerDay := tpd
      passRate := ((passCount : ℚ) / n) * 100
      failRate := ((failCount : ℚ) / n) * 100
      timeoutRate := ((timeoutTrials.length : ℚ) / n) * 100
      avgDaysPass := pyRound1 avgDaysPass
      medianDaysPass := pyRound1 medianDaysPass
      avgDaysFail := pyRound1 avgDaysFail
      medianDaysFail := pyRound1 medianDaysFail
      avgMaxWinStreak :=
        pyRound1 ((allWinStreaks.map (fun k => (k : ℚ))).sum / n)
      avgMaxLossStreak :=
        pyRound1 ((allLossStreaks.map (fun k => (k : ℚ))).sum / n)
      worstCase95 :=
        pyRound1 (percentileL 95 (allLossStreaks.map (fun k => (k : ℚ))))
      rawPnL := trials.map (fun t => (t.pnl, t.outcome))
      rawPassDays := allPassDays
      rawFailDays := allFailDays
      rawWinStreaks := allWinStreaks
      rawLossStreaks := allLossStreaks }

/-! ### The path recorder `run_visualization_sim` (lines 200-253) -/

/-- One row of the curve DataFrame (line 213 / line 242). -/
structure CurvePoint where
  day : ℕ
  equity : ℚ
  simId : ℕ
  status : Status
deriving DecidableEq, Repr

/-- Mutable per-trial state of `run_visualization_sim` (lines 208-211).
Note `status` starts at `"Timeout"` there, unlike `run_monte_carlo`. -/
structure VizState where
  equity : ℚ
  hwm : ℚ
  ddLimit : ℚ
  status : Status
  idx : ℕ
deriving DecidableEq, Repr

/-- Lines 220-222: the trade's equity update. -/
def vizApply (c : Cfg) (riskVal : ℚ) (isWin : Bool) (s : VizState) :
    VizState :=
  if isWin then
    { s with equity := s.equity + rewardPerTrade c riskVal, idx := s.idx + 1 }
  else
    { s with equity := s.equity - riskVal, idx := s.idx + 1 }

/-- Lines 224-227: high-water-mark / trailing-floor update. -/
def vizHwm (c : Cfg) (s : VizState) : VizState :=
  if s.equity > s.hwm then
    { s with
      hwm := s.equity
      ddLimit := if c.trailing then s.equity - c.maxTotalDd else s.ddLimit }
  else s

/-- Lines 229-240: the exit cascade of the visualization loop; returns
(state, new `day_status`, trade-loop `break` flag).  The personal
breaker breaks the trade loop but leaves `day_status` at
`"In Progress"`, so the day loop continues. -/
def vizChecks (c : Cfg) (riskVal dailyStart : ℚ) (s : VizState) :
    VizState × Status × Bool :=
  if s.equity ≤ s.ddLimit then
    ({ s with status := .failed }, Status.failed, true)
  else if dailyStart - s.equity ≥ c.maxDailyDd then
    ({ s with status := .failed }, Status.failed, true)
  else if personalLimitUsd c riskVal > 0 ∧
      dailyStart - s.equity ≥ personalLimitUsd c riskVal then
    (s, Status.inProgress, true)
  else if s.equity ≥ c.accountSize + c.profitTarget then
    ({ s with status := .passed }, Status.passed, true)
  else
    (s, Status.inProgress, false)

/-- One iteration of the visualization trade loop (lines 219-240). -/
def vizTradeStep (c : Cfg) (riskVal dailyStart : ℚ) (u : ℕ → ℚ)
    (s : VizState) : VizState × Status × Bool :=
  vizChecks c riskVal dailyStart
    (vizHwm c (vizApply c riskVal (decide (u s.idx < c.winRate)) s))

/-- The visualization trade loop; returns the final state and the
day's `day_status`. -/
def runVizTrades (c : Cfg) (riskVal dailyStart : ℚ) (u : ℕ → ℚ) :
    ℕ → VizState → VizState × Status
  | 0, s => (s, Status.inProgress)
  | n + 1, s =>
    let t := vizTradeStep c riskVal dailyStart u s
    if t.2.2 then (t.1, t.2.1) else runVizTrades c riskVal dailyStart u n t.1

/-- The day loop `for day in range(1, max_days + 1)` (lines 215-245):
after each day append `{"Day": day, "Equity": equity, "SimID": sim_id,
"Status": status}` to the curve; break when `day_status` is terminal. -/
def runVizDays (c : Cfg) (riskVal : ℚ) (tpd : ℕ) (u : ℕ → ℚ)
    (simId : ℕ) : ℕ → ℕ → VizState → List CurvePoint →
    List CurvePoint × VizState
  | _, 0, s, acc => (acc, s)
  | day, fuel + 1, s, acc =>
    let t := runVizTrades c riskVal s.equity u tpd s
    let acc' := acc ++ [⟨day, t.1.equity, simId, t.1.status⟩]
    if t.2 ≠ Status.inProgress then (acc', t.1)
    else runVizDays c riskVal tpd u simId (day + 1) fuel t.1 acc'

/-- One trial of `run_visualization_sim` (lines 207-251): build the
curve starting from the day-0 point, then back-fill every point with
`curve[-1]["Status"]`. -/
def vizTrial (c : Cfg) (riskVal : ℚ) (tpd : ℕ) (u : ℕ → ℚ)
    (simId : ℕ) : List CurvePoint :=
  let s0 : VizState :=
    { equity := c.accountSize, hwm := c.accountSize
      ddLimit := c.accountSize - c.maxTotalDd
      status := .timeout, idx := 0 }
  let start : List CurvePoint := [⟨0, c.accountSize, simId, .inProgress⟩]
  let p := runVizDays c riskVal tpd u simId 1 c.maxDays s0 start
  let finalStatus := ((p.1.getLast?).getD ⟨0, 0, 0, .inProgress⟩).status
  p.1.map (fun pt => { pt with status := finalStatus })

/-- `run_visualization_sim(risk_val, trades_day_val, n_viz)`: the
concatenated curves of `n_viz` independent trials. -/
def runVisualizationSim (c : Cfg) (riskVal : ℚ) (tpd : ℕ)
    (u : ℕ → ℕ → ℚ) (nViz : ℕ) : List CurvePoint :=
  (List.range nViz).flatMap (fun i => vizTrial c riskVal tpd (u i) i)

/-! ### The tab-1 sweep handler (lines 262-281) -/

/-- The grid cells produced by the nested loops
`for r_val in risk_list: for t_val in trades_list:` (lines 275-281). -/
def sweepCells (riskList : List ℚ) (tradesList : List ℤ) :
    List (ℚ × ℤ) :=
  riskList.flatMap (fun r => tradesList.map (fun t => (r, t)))

/-- Lines 264-281: the handler sorts both parsed lists ascending
(`risk_list.sort(); trades_list.sort()`, line 266) and then runs
`run_monte_carlo` per cell of the nested loops, appending to
`results_summary` in loop order.  `u` supplies an independent draw
family per cell (indexed by position in the enumeration); an exception
in any cell (`num_simulations = 0`) aborts the whole sweep. -/
def runSweep (c : Cfg) (riskList : List ℚ) (tradesList : List ℤ)
    (u : ℕ → ℕ → ℕ → ℚ) : Option (List ScenarioResult) :=
  ((sweepCells (riskList.insertionSort (· ≤ ·))
      (tradesList.insertionSort (· ≤ ·))).enum).mapM
    (fun cell => runMonteCarlo c cell.2.1 cell.2.2.toNat (u cell.1))

/-- Python `str.isspace`-style whitespace for `strip()` (the common
ASCII cases). -/
def isSpaceChar (ch : Char) : Bool :=
  ch = ' ' || ch = '\t' || ch = '\n' || ch = '\r'

/-- `x.strip()` on the token's characters. -/
def stripChars (l : List Char) : List Char :=
  ((l.dropWhile isSpaceChar).reverse.dropWhile isSpaceChar).reverse

def parseNatDigitsAux : List Char → ℕ → Option ℕ
  | [], acc => some acc
  | ch :: rest, acc =>
    if '0' ≤ ch ∧ ch ≤ '9' then
      parseNatDigitsAux rest (acc * 10 + (ch.toNat - '0'.toNat))
    else none

/-- A non-empty run of decimal digits, as a number. -/
def parseNatDigits (cs : List Char) : Option ℕ :=
  match cs with
  | [] => none
  | _ => parseNatDigitsAux cs 0

/-- Python `int(tok.strip())` on a decimal token: optional sign then
one or more digits, `ValueError` (`none`) otherwise. -/
def parseIntToken (tok : String) : Option ℤ :=
  match stripChars tok.data with
  | '-' :: rest => (parseNatDigits rest).map (fun n => -(n : ℤ))
  | '+' :: rest => (parseNatDigits rest).map (fun n => (n : ℤ))
  | cs => (parseNatDigits cs).map (fun n => (n : ℤ))

/-- Lines 264-265: `[int(x.strip()) for x in trades_input.split(',')]`.
`int()` raises `ValueError` (caught at line 301) exactly when a token
is not an integer numeral; no range check of any kind is applied. -/
def parseTradesTokens (toks : List String) : Option (List ℤ) :=
  toks.mapM parseIntToken

/-- The "Run Full Analysis" handler (lines 262-281), with the risk
list already parsed (float parsing is the UI's concern): parse the
trades tokens — the only validation performed — then run the sweep.
The outer `none` is the `ValueError` path (line 301). -/
def tab1Run (c : Cfg) (riskList : List ℚ) (tradesToks : List String)
    (u : ℕ → ℕ → ℕ → ℚ) : Option (Option (List ScenarioResult)) :=
  (parseTradesTokens tradesToks).map (fun tl => runSweep c riskList tl u)

/-! ### Specification-side streak definitions

The simulator tracks streaks with running counters; the specification
notion is "the longest run of consecutive wins (losses) in the executed
draw sequence".  `maxRun` states the latter directly: the maximum, over
all start positions, of the run length starting there. -/

/-- Length of the initial run of `b` at the head of the list. -/
def headRun (b : Bool) : List Bool → ℕ
  | [] => 0
  | x :: xs => if x = b then headRun b xs + 1 else 0

/-- Longest run of consecutive `b`s anywhere in the list: the maximum
over all suffixes of the head-run length. -/
def maxRun (b : Bool) : List Bool → ℕ
  | [] => 0
  | x :: xs => max (headRun b (x :: xs)) (maxRun b xs)

/-- The four streak counters of lines 89-92, in isolation. -/
structure Streaks where
  cw : ℕ
  cl : ℕ
  mw : ℕ
  ml : ℕ
deriving DecidableEq, Repr

/-- Lines 100-108 restricted to the streak counters. -/
def streakStep (s : Streaks) (isWin : Bool) : Streaks :=
  if isWin then ⟨s.cw + 1, 0, max s.mw (s.cw + 1), s.ml⟩
  else ⟨0, s.cl + 1, s.mw, max s.ml (s.cl + 1)⟩

/-- The streak counters after processing a win/loss sequence. -/
def streakRun (l : List Bool) : Streaks :=
  l.foldl streakStep ⟨0, 0, 0, 0⟩

/-- Modelled from the spec: "the 95th-percentile maximum loss streak
... conditioned on Passed trials only" — a statistic the spec asserts
the aggregator computes.  It is defined here from the result's raw
trial-order-aligned lists, to be compared with the statistics the code
actually returns. -/
def specPassedLossStreak95 (r : ScenarioResult) : ℚ :=
  percentileL 95
    (((r.rawPnL.zip r.rawLossStreaks).filter
        (fun p => decide (p.1.2 = Status.passed))).map
      (fun p => (p.2 : ℚ)))

/-! ### Shape and preservation lemmas for the trade step -/

/-- The exit cascade only ever rewrites the status field. -/
lemma checkExits_shape (c : Cfg) (riskVal dailyStart : ℚ) (s : TrialState) :
    ∃ st, (checkExits c riskVal dailyStart s).1 = { s with status := st } := by
  unfold checkExits
  split_ifs <;> exact ⟨_, rfl⟩

/-- The high-water-mark update only rewrites `hwm` and `ddLimit`. -/
lemma applyHwm_shape (c : Cfg) (s : TrialState) :
    ∃ h d, applyHwm c s = { s with hwm := h, ddLimit := d } := by
  unfold applyHwm
  split_ifs <;> exact ⟨_, _, rfl⟩

lemma checkExits_hwm (c : Cfg) (riskVal dailyStart : ℚ) (s : TrialState) :
    (checkExits c riskVal dailyStart s).1.hwm = s.hwm := by
  obtain ⟨st, hst⟩ := checkExits_shape c riskVal dailyStart s
  rw [hst]

lemma checkExits_ddLimit (c : Cfg) (riskVal dailyStart : ℚ) (s : TrialState) :
    (checkExits c riskVal dailyStart s).1.ddLimit = s.ddLimit := by
  obtain ⟨st, hst⟩ := checkExits_shape c riskVal dailyStart s
  rw [hst]

lemma applyOutcome_hwm (c : Cfg) (riskVal : ℚ) (w : Bool) (s : TrialState) :
    (applyOutcome c riskVal w s).hwm = s.hwm := by
  cases w <;> simp [applyOutcome]

lemma applyOutcome_ddLimit (c : Cfg) (riskVal : ℚ) (w : Bool) (s : TrialState) :
    (applyOutcome c riskVal w s).ddLimit = s.ddLimit := by
  cases w <;> simp [applyOutcome]

/-- C1: after each trade's equity update and high-water-mark /
drawdown-floor update, the exit conditions are evaluated in the exact
priority order total-drawdown breach (Failed), daily-drawdown breach
(Failed), personal circuit breaker (day-only stop, status unchanged),
profit target (Passed); the first condition that holds wins and
short-circuits the remaining trades of that day — in particular a trade
that simultaneously breaches a drawdown rule and reaches the target is
classified Failed.  Stated for the cascade of `run_monte_carlo`
(lines 116-127), its trade loop, and the identically ordered cascade of
`run_visualization_sim` (lines 229-240). -/
theorem C1_exit_priority_order :
    (∀ (c : Cfg) (riskVal dailyStart : ℚ) (s : TrialState),
      (s.equity ≤ s.ddLimit →
        (checkExits c riskVal dailyStart s).1.status = Status.failed ∧
        (checkExits c riskVal dailyStart s).2 = true) ∧
      (¬ s.equity ≤ s.ddLimit → dailyStart - s.equity ≥ c.maxDailyDd →
        (checkExits c riskVal dailyStart s).1.status = Status.failed ∧
        (checkExits c riskVal dailyStart s).2 = true) ∧
      (¬ s.equity ≤ s.ddLimit → ¬ dailyStart - s.equity ≥ c.maxDailyDd →
        personalLimitUsd c riskVal > 0 →
        dailyStart - s.equity ≥ personalLimitUsd c riskVal →
        (checkExits c riskVal dailyStart s).1 = s ∧
        (checkExits c riskVal dailyStart s).2 = true) ∧
      (¬ s.equity ≤ s.ddLimit → ¬ dailyStart - s.equity ≥ c.maxDailyDd →
        ¬ (personalLimitUsd c riskVal > 0 ∧
           dailyStart - s.equity ≥ personalLimitUsd c riskVal) →
        s.equity ≥ c.accountSize + c.profitTarget →
        (checkExits c riskVal dailyStart s).1.status = Status.passed ∧
        (checkExits c riskVal dailyStart s).2 = true)) ∧
    (∀ (c : Cfg) (riskVal dailyStart : ℚ) (u : ℕ → ℚ) (n : ℕ)
        (s : TrialState),
      (tradeStep c riskVal dailyStart u s).2 = true →
      runTrades c riskVal dailyStart u (n + 1) s =
        (tradeStep c riskVal dailyStart u s).1) ∧
    (∀ (c : Cfg) (riskVal dailyStart : ℚ) (s : VizState),
      (s.equity ≤ s.ddLimit →
        (vizChecks c riskVal dailyStart s).1.status = Status.failed ∧
        (vizChecks c riskVal dailyStart s).2 = (Status.failed, true)) ∧
      (¬ s.equity ≤ s.ddLimit → dailyStart - s.equity ≥ c.maxDailyDd →
        (vizChecks c riskVal dailyStart s).1.status = Status.failed ∧
        (vizChecks c riskVal dailyStart s).2 = (Status.failed, true)) ∧
      (¬ s.equity ≤ s.ddLimit → ¬ dailyStart - s.equity ≥ c.maxDailyDd →
        personalLimitUsd c riskVal > 0 →
        dailyStart - s.equity ≥ personalLimitUsd c riskVal →
        (vizChecks c riskVal dailyStart s).1 = s ∧
        (vizChecks c riskVal dailyStart s).2 = (Status.inProgress, true)) ∧
      (¬ s.equity ≤ s.ddLimit → ¬ dailyStart - s.equity ≥ c.maxDailyDd →
        ¬ (personalLimitUsd c riskVal > 0 ∧
           dailyStart - s.equity ≥ personalLimitUsd c riskVal) →
        s.equity ≥ c.accountSize + c.profitTarget →
        (vizChecks c riskVal dailyStart s).1.status = Status.passed ∧
        (vizChecks c riskVal dailyStart s).2 = (Status.passed, true))) := by
  refine ⟨?_, ?_, ?_⟩
  · intro c riskVal dailyStart s
    refine ⟨?_, ?_, ?_, ?_⟩
    · intro h1
      simp [checkExits, h1]
    · intro h1 h2
      simp [checkExits, h1, h2]
    · intro h1 h2 h3 h4
      simp [checkExits, h1, h2, h3, h4]
    · intro h1 h2 h3 h4
      simp [checkExits, h1, h2, h3, h4]
  · intro c riskVal dailyStart u n s h
    simp [runTrades, h]
  · intro c riskVal dailyStart s
    refine ⟨?_, ?_, ?_, ?_⟩
    · intro h1
      simp [vizChecks, h1]
    · intro h1 h2
      simp [vizChecks, h1, h2]
    · intro h1 h2 h3 h4
      simp [vizChecks, h1, h2, h3, h4]
    · intro h1 h2 h3 h4
      simp [vizChecks, h1, h2, h3, h4]

/-- Witness for C1 at a concrete input: a trade that breaches the total
drawdown floor and simultaneously satisfies the profit-target condition
is classified Failed and stops the day. -/
theorem C1_exit_priority_order_witness :
    (900 : ℚ) ≤ 950 ∧ (900 : ℚ) ≥ 1000 + -200 ∧
    (checkExits ⟨1000, -200, 10000, 50, false, 1/2, 1, 0, 1, 1⟩ 10 900
      ⟨900, 1000, 950, .inProgress, 0, 0, 0, 0, 0, []⟩).1.status =
        Status.failed ∧
    (checkExits ⟨1000, -200, 10000, 50, false, 1/2, 1, 0, 1, 1⟩ 10 900
      ⟨900, 1000, 950, .inProgress, 0, 0, 0, 0, 0, []⟩).2 = true := by
  have h := (C1_exit_priority_order.1
    ⟨1000, -200, 10000, 50, false, 1/2, 1, 0, 1, 1⟩ 10 900
    ⟨900, 1000, 950, .inProgress, 0, 0, 0, 0, 0, []⟩).1 (by norm_num)
  exact ⟨by norm_num, by norm_num, h.1, h.2⟩

/-- C4: with `daily_limit_r = 0` the personal circuit breaker is
disabled — any stop of the trade loop is a terminal (status-changing)
stop, so the breaker never triggers; with `daily_limit_r > 0` and
`risk_val > 0`, when the day's loss reaches
`daily_limit_r * risk_val` (and no institutional drawdown rule fired
first), the trade loop stops with the trial status unchanged
(`InProgress`), the remaining trades of the day are skipped, and the
day loop proceeds to the next day. -/
theorem C4_personal_breaker :
    (∀ (c : Cfg) (riskVal dailyStart : ℚ) (s : TrialState),
      c.dailyLimitR = 0 → s.status = Status.inProgress →
      (checkExits c riskVal dailyStart s).2 = true →
      (checkExits c riskVal dailyStart s).1.status ≠ Status.inProgress) ∧
    (∀ (c : Cfg) (riskVal dailyStart : ℚ) (s : TrialState),
      ¬ s.equity ≤ s.ddLimit → ¬ dailyStart - s.equity ≥ c.maxDailyDd →
      c.dailyLimitR > 0 → riskVal > 0 →
      dailyStart - s.equity ≥ c.dailyLimitR * riskVal →
      (checkExits c riskVal dailyStart s).1 = s ∧
      (checkExits c riskVal dailyStart s).2 = true) ∧
    (∀ (c : Cfg) (riskVal dailyStart : ℚ) (u : ℕ → ℚ) (n : ℕ)
        (s : TrialState),
      (tradeStep c riskVal dailyStart u s).2 = true →
      runTrades c riskVal dailyStart u (n + 1) s =
        (tradeStep c riskVal dailyStart u s).1) ∧
    (∀ (c : Cfg) (riskVal : ℚ) (tpd : ℕ) (u : ℕ → ℚ) (n : ℕ)
        (s : TrialState),
      (runDay c riskVal tpd u s).status = Status.inProgress →
      runDays c riskVal tpd u (n + 1) s =
        ((runDays c riskVal tpd u n (runDay c riskVal tpd u s)).1 + 1,
         (runDays c riskVal tpd u n (runDay c riskVal tpd u s)).2)) := by
  refine ⟨?_, ?_, ?_, ?_⟩
  · intro c riskVal dailyStart s h0 hst
    have hp : personalLimitUsd c riskVal = 0 := by
      simp [personalLimitUsd, h0]
    unfold checkExits
    rw [hp]
    split_ifs <;> simp_all
  · intro c riskVal dailyStart s h1 h2 hd hr hloss
    have hp : personalLimitUsd c riskVal = c.dailyLimitR * riskVal := by
      simp [personalLimitUsd, hd]
    have hm : (0 : ℚ) < c.dailyLimitR * riskVal := mul_pos hd hr
    simp [checkExits, h1, h2, hp, hloss, hm]
  · intro c riskVal dailyStart u n s h
    simp [runTrades, h]
  · intro c riskVal tpd u n s h
    simp [runDays, h]

/-- Witness for C4 at concrete inputs: with the limit at `2R` and risk
`10`, a day loss of `20` with no institutional breach stops the day
with status unchanged, and a day ending `In Progress` advances the day
loop. -/
theorem C4_personal_breaker_witness :
    (¬ (980 : ℚ) ≤ 500 ∧ ¬ (1000 : ℚ) - 980 ≥ 2500 ∧ (2 : ℚ) > 0 ∧
      (10 : ℚ) > 0 ∧ (1000 : ℚ) - 980 ≥ 2 * 10) ∧
    (checkExits ⟨1000, 3000, 2500, 500, false, 1/2, 1, 2, 1, 5⟩ 10 1000
      ⟨980, 1000, 500, .inProgress, 0, 0, 0, 2, 2, [false, false]⟩).1 =
      ⟨980, 1000, 500, .inProgress, 0, 0, 0, 2, 2, [false, false]⟩ ∧
    (checkExits ⟨1000, 3000, 2500, 500, false, 1/2, 1, 2, 1, 5⟩ 10 1000
      ⟨980, 1000, 500, .inProgress, 0, 0, 0, 2, 2, [false, false]⟩).2 =
      true := by
  have h := (C4_personal_breaker.2.1
    ⟨1000, 3000, 2500, 500, false, 1/2, 1, 2, 1, 5⟩ 10 1000
    ⟨980, 1000, 500, .inProgress, 0, 0, 0, 2, 2, [false, false]⟩)
    (by norm_num) (by norm_num) (by norm_num) (by norm_num) (by norm_num)
  exact ⟨⟨by norm_num, by norm_num, by norm_num, by norm_num, by norm_num⟩,
    h.1, h.2⟩


/-! ### Loop unfolding lemmas -/

lemma runTrades_succ (c : Cfg) (riskVal dailyStart : ℚ) (u : ℕ → ℚ)
    (n : ℕ) (s : TrialState) :
    runTrades c riskVal dailyStart u (n + 1) s =
      if (tradeStep c riskVal dailyStart u s).2 = true then
        (tradeStep c riskVal dailyStart u s).1
      else
        runTrades c riskVal dailyStart u n
          (tradeStep c riskVal dailyStart u s).1 := rfl

lemma runDays_succ (c : Cfg) (riskVal : ℚ) (tpd : ℕ) (u : ℕ → ℚ)
    (n : ℕ) (s : TrialState) :
    runDays c riskVal tpd u (n + 1) s =
      if (runDay c riskVal tpd u s).status ≠ Status.inProgress then
        (1, runDay c riskVal tpd u s)
      else
        ((runDays c riskVal tpd u n (runDay c riskVal tpd u s)).1 + 1,
         (runDays c riskVal tpd u n (runDay c riskVal tpd u s)).2) := rfl

/-! ### High-water-mark / drawdown-floor invariants -/

/-- The drawdown floor tracked by the simulator: under Trailing mode it
always equals `high_water_mark - max_total_drawdown`; under Static mode
it stays at `account_size - max_total_drawdown`. -/
def DdInv (c : Cfg) (s : TrialState) : Prop :=
  (c.trailing = true → s.ddLimit = s.hwm - c.maxTotalDd) ∧
  (c.trailing = false → s.ddLimit = c.accountSize - c.maxTotalDd)

lemma applyHwm_hwm_le (c : Cfg) (s : TrialState) :
    s.hwm ≤ (applyHwm c s).hwm := by
  by_cases h : s.equity > s.hwm
  · unfold applyHwm
    rw [if_pos h]
    exact le_of_lt h
  · unfold applyHwm
    rw [if_neg h]

lemma applyHwm_ddInv (c : Cfg) (s : TrialState) (hs : DdInv c s) :
    DdInv c (applyHwm c s) := by
  by_cases h : s.equity > s.hwm
  · refine ⟨fun ht => ?_, fun ht => ?_⟩
    · simp [applyHwm, h, ht]
    · simp only [applyHwm, if_pos h, ht, Bool.false_eq_true, if_false]
      exact hs.2 ht
  · unfold applyHwm
    rw [if_neg h]
    exact hs

lemma applyHwm_ddLimit_le (c : Cfg) (s : TrialState) (hs : DdInv c s)
    (ht : c.trailing = true) : s.ddLimit ≤ (applyHwm c s).ddLimit := by
  by_cases h : s.equity > s.hwm
  · have h1 := hs.1 ht
    simp only [applyHwm, if_pos h, ht, if_true]
    rw [h1]
    linarith
  · unfold applyHwm
    rw [if_neg h]

lemma applyHwm_ddLimit_static (c : Cfg) (s : TrialState)
    (ht : c.trailing = false) : (applyHwm c s).ddLimit = s.ddLimit := by
  by_cases h : s.equity > s.hwm
  · simp [applyHwm, h, ht]
  · unfold applyHwm
    rw [if_neg h]

lemma applyOutcome_ddInv (c : Cfg) (riskVal : ℚ) (w : Bool)
    (s : TrialState) (hs : DdInv c s) :
    DdInv c (applyOutcome c riskVal w s) := by
  refine ⟨fun ht => ?_, fun ht => ?_⟩
  · rw [applyOutcome_ddLimit, applyOutcome_hwm]
    exact hs.1 ht
  · rw [applyOutcome_ddLimit]
    exact hs.2 ht

lemma checkExits_ddInv (c : Cfg) (riskVal dailyStart : ℚ)
    (s : TrialState) (hs : DdInv c s) :
    DdInv c (checkExits c riskVal dailyStart s).1 := by
  refine ⟨fun ht => ?_, fun ht => ?_⟩
  · rw [checkExits_ddLimit, checkExits_hwm]
    exact hs.1 ht
  · rw [checkExits_ddLimit]
    exact hs.2 ht

lemma tradeStep_ddInv (c : Cfg) (riskVal dailyStart : ℚ) (u : ℕ → ℚ)
    (s : TrialState) (hs : DdInv c s) :
    DdInv c (tradeStep c riskVal dailyStart u s).1 :=
  checkExits_ddInv _ _ _ _
    (applyHwm_ddInv _ _ (applyOutcome_ddInv _ _ _ _ hs))

lemma tradeStep_hwm_le (c : Cfg) (riskVal dailyStart : ℚ) (u : ℕ → ℚ)
    (s : TrialState) :
    s.hwm ≤ (tradeStep c riskVal dailyStart u s).1.hwm := by
  unfold tradeStep
  rw [checkExits_hwm]
  calc s.hwm
      = (applyOutcome c riskVal (decide (u s.idx < c.winRate)) s).hwm :=
        (applyOutcome_hwm _ _ _ _).symm
    _ ≤ _ := applyHwm_hwm_le _ _

lemma tradeStep_ddLimit_le (c : Cfg) (riskVal dailyStart : ℚ)
    (u : ℕ → ℚ) (s : TrialState) (hs : DdInv c s)
    (ht : c.trailing = true) :
    s.ddLimit ≤ (tradeStep c riskVal dailyStart u s).1.ddLimit := by
  unfold tradeStep
  rw [checkExits_ddLimit]
  calc s.ddLimit
      = (applyOutcome c riskVal (decide (u s.idx < c.winRate)) s).ddLimit :=
        (applyOutcome_ddLimit _ _ _ _).symm
    _ ≤ _ := applyHwm_ddLimit_le _ _
        (applyOutcome_ddInv _ _ _ _ hs) ht

lemma tradeStep_ddLimit_static (c : Cfg) (riskVal dailyStart : ℚ)
    (u : ℕ → ℚ) (s : TrialState) (ht : c.trailing = false) :
    (tradeStep c riskVal dailyStart u s).1.ddLimit = s.ddLimit := by
  unfold tradeStep
  rw [checkExits_ddLimit, applyHwm_ddLimit_static _ _ ht,
    applyOutcome_ddLimit]

lemma runTrades_ddInv (c : Cfg) (riskVal dailyStart : ℚ) (u : ℕ → ℚ) :
    ∀ (n : ℕ) (s : TrialState), DdInv c s →
      DdInv c (runTrades c riskVal dailyStart u n s) ∧
      s.hwm ≤ (runTrades c riskVal dailyStart u n s).hwm ∧
      (c.trailing = true →
        s.ddLimit ≤ (runTrades c riskVal dailyStart u n s).ddLimit) ∧
      (c.trailing = false →
        (runTrades c riskVal dailyStart u n s).ddLimit = s.ddLimit)
  | 0, s, hs => ⟨hs, le_refl _, fun _ => le_refl _, fun _ => rfl⟩
  | n + 1, s, hs => by
    rw [runTrades_succ]
    by_cases h : (tradeStep c riskVal dailyStart u s).2 = true
    · rw [if_pos h]
      exact ⟨tradeStep_ddInv _ _ _ _ _ hs, tradeStep_hwm_le _ _ _ _ _,
        fun ht => tradeStep_ddLimit_le _ _ _ _ _ hs ht,
        fun ht => tradeStep_ddLimit_static _ _ _ _ _ ht⟩
    · rw [if_neg h]
      have hstep := tradeStep_ddInv c riskVal dailyStart u s hs
      have ih := runTrades_ddInv c riskVal dailyStart u n
        (tradeStep c riskVal dailyStart u s).1 hstep
      refine ⟨ih.1, le_trans (tradeStep_hwm_le _ _ _ _ _) ih.2.1, ?_, ?_⟩
      · intro ht
        exact le_trans (tradeStep_ddLimit_le _ _ _ _ _ hs ht) (ih.2.2.1 ht)
      · intro ht
        rw [ih.2.2.2 ht, tradeStep_ddLimit_static _ _ _ _ _ ht]

lemma runDays_ddInv (c : Cfg) (riskVal : ℚ) (tpd : ℕ) (u : ℕ → ℚ) :
    ∀ (n : ℕ) (s : TrialState), DdInv c s →
      DdInv c (runDays c riskVal tpd u n s).2 ∧
      s.hwm ≤ (runDays c riskVal tpd u n s).2.hwm ∧
      (c.trailing = true →
        s.ddLimit ≤ (runDays c riskVal tpd u n s).2.ddLimit) ∧
      (c.trailing = false →
        (runDays c riskVal tpd u n s).2.ddLimit = s.ddLimit)
  | 0, s, hs => ⟨hs, le_refl _, fun _ => le_refl _, fun _ => rfl⟩
  | n + 1, s, hs => by
    rw [runDays_succ]
    unfold runDay
    have hday := runTrades_ddInv c riskVal s.equity u tpd s hs
    by_cases h : (runTrades c riskVal s.equity u tpd s).status ≠
      Status.inProgress
    · rw [if_pos h]
      exact hday
    · rw [if_neg h]
      have ih := runDays_ddInv c riskVal tpd u n _ hday.1
      refine ⟨ih.1, le_trans hday.2.1 ih.2.1, ?_, ?_⟩
      · intro ht
        exact le_trans (hday.2.2.1 ht) (ih.2.2.1 ht)
      · intro ht
        rw [ih.2.2.2 ht, hday.2.2.2 ht]

/-- C2: the high-water mark is non-decreasing over every trade of every
trial; under Trailing mode the drawdown floor is non-decreasing, and
under Static mode it is constant at
`account_size - max_total_drawdown` for the whole trial.  Stated for
the initial state, for each single trade step, and for the whole day
loop of a trial. -/
theorem C2_hwm_floor_monotone :
    (∀ c : Cfg, DdInv c (initState c) ∧
      (initState c).ddLimit = c.accountSize - c.maxTotalDd) ∧
    (∀ (c : Cfg) (riskVal dailyStart : ℚ) (u : ℕ → ℚ) (s : TrialState),
      DdInv c s →
      DdInv c (tradeStep c riskVal dailyStart u s).1 ∧
      s.hwm ≤ (tradeStep c riskVal dailyStart u s).1.hwm ∧
      (c.trailing = true →
        s.ddLimit ≤ (tradeStep c riskVal dailyStart u s).1.ddLimit) ∧
      (c.trailing = false →
        (tradeStep c riskVal dailyStart u s).1.ddLimit = s.ddLimit)) ∧
    (∀ (c : Cfg) (riskVal : ℚ) (tpd : ℕ) (u : ℕ → ℚ),
      c.accountSize ≤
        (runDays c riskVal tpd u c.maxDays (initState c)).2.hwm ∧
      (c.trailing = false →
        (runDays c riskVal tpd u c.maxDays (initState c)).2.ddLimit =
          c.accountSize - c.maxTotalDd)) := by
  have hinit : ∀ c : Cfg, DdInv c (initState c) := by
    intro c
    refine ⟨fun ht => ?_, fun ht => ?_⟩ <;> rfl
  refine ⟨fun c => ⟨hinit c, rfl⟩, ?_, ?_⟩
  · intro c riskVal dailyStart u s hs
    exact ⟨tradeStep_ddInv _ _ _ _ _ hs, tradeStep_hwm_le _ _ _ _ _,
      fun ht => tradeStep_ddLimit_le _ _ _ _ _ hs ht,
      fun ht => tradeStep_ddLimit_static _ _ _ _ _ ht⟩
  · intro c riskVal tpd u
    have h := runDays_ddInv c riskVal tpd u c.maxDays (initState c) (hinit c)
    exact ⟨h.2.1, fun ht => h.2.2.2 ht⟩

/-- Witness for C2 at a concrete input: the initial state satisfies the
floor invariant and a concrete trade step keeps the high-water mark and
the trailing floor non-decreasing. -/
theorem C2_hwm_floor_monotone_witness :
    DdInv ⟨1000, 30, 500, 500, true, 1/2, 1, 0, 1, 5⟩
      ⟨1000, 1000, 500, .inProgress, 0, 0, 0, 0, 0, []⟩ ∧
    (1000 : ℚ) ≤
      (tradeStep ⟨1000, 30, 500, 500, true, 1/2, 1, 0, 1, 5⟩ 10 1000
        (fun _ => 0)
        ⟨1000, 1000, 500, .inProgress, 0, 0, 0, 0, 0, []⟩).1.hwm ∧
    (500 : ℚ) ≤
      (tradeStep ⟨1000, 30, 500, 500, true, 1/2, 1, 0, 1, 5⟩ 10 1000
        (fun _ => 0)
        ⟨1000, 1000, 500, .inProgress, 0, 0, 0, 0, 0, []⟩).1.ddLimit := by
  have hs : DdInv ⟨1000, 30, 500, 500, true, 1/2, 1, 0, 1, 5⟩
      ⟨1000, 1000, 500, .inProgress, 0, 0, 0, 0, 0, []⟩ :=
    ⟨fun _ => by norm_num, fun hf => by simp at hf⟩
  have h := C2_hwm_floor_monotone.2.1
    ⟨1000, 30, 500, 500, true, 1/2, 1, 0, 1, 5⟩ 10 1000 (fun _ => 0)
    ⟨1000, 1000, 500, .inProgress, 0, 0, 0, 0, 0, []⟩ hs
  exact ⟨hs, h.2.1, h.2.2.1 rfl⟩

/-! ### Outcome partition -/

/-- The terminal outcome of a trial is always one of Passed, Failed,
Timeout. -/
lemma runTrial_outcome_cases (c : Cfg) (riskVal : ℚ) (tpd : ℕ)
    (u : ℕ → ℚ) :
    (runTrial c riskVal tpd u).outcome = Status.passed ∨
    (runTrial c riskVal tpd u).outcome = Status.failed ∨
    (runTrial c riskVal tpd u).outcome = Status.timeout := by
  unfold runTrial
  cases h : (runDays c riskVal tpd u c.maxDays (initState c)).2.status <;>
    simp [h]

lemma count_partition (l : List TrialRecord)
    (hl : ∀ t ∈ l, t.outcome = Status.passed ∨ t.outcome = Status.failed ∨
      t.outcome = Status.timeout) :
    (l.filter (fun t => decide (t.outcome = Status.passed))).length +
    (l.filter (fun t => decide (t.outcome = Status.failed))).length +
    (l.filter (fun t => decide (t.outcome ≠ Status.passed ∧
      t.outcome ≠ Status.failed))).length = l.length := by
  induction l with
  | nil => rfl
  | cons x xs ih =>
    have hx := hl x (List.mem_cons_self x xs)
    have ihh := ih (fun t ht => hl t (List.mem_cons_of_mem _ ht))
    rcases hx with hcase | hcase | hcase
    · have h1 : (fun t : TrialRecord =>
          decide (t.outcome = Status.passed)) x = true := by simp [hcase]
      have h2 : (fun t : TrialRecord =>
          decide (t.outcome = Status.failed)) x = false := by simp [hcase]
      have h3 : (fun t : TrialRecord => decide (t.outcome ≠ Status.passed ∧
          t.outcome ≠ Status.failed)) x = false := by simp [hcase]
      rw [List.filter_cons, List.filter_cons, List.filter_cons,
        if_pos h1, if_neg (by simp [h2]), if_neg (by simp [h3])]
      simp only [List.length_cons]
      omega
    · have h1 : (fun t : TrialRecord =>
          decide (t.outcome = Status.passed)) x = false := by simp [hcase]
      have h2 : (fun t : TrialRecord =>
          decide (t.outcome = Status.failed)) x = true := by simp [hcase]
      have h3 : (fun t : TrialRecord => decide (t.outcome ≠ Status.passed ∧
          t.outcome ≠ Status.failed)) x = false := by simp [hcase]
      rw [List.filter_cons, List.filter_cons, List.filter_cons,
        if_neg (by simp [h1]), if_pos h2, if_neg (by simp [h3])]
      simp only [List.length_cons]
      omega
    · have h1 : (fun t : TrialRecord =>
          decide (t.outcome = Status.passed)) x = false := by simp [hcase]
      have h2 : (fun t : TrialRecord =>
          decide (t.outcome = Status.failed)) x = false := by simp [hcase]
      have h3 : (fun t : TrialRecord => decide (t.outcome ≠ Status.passed ∧
          t.outcome ≠ Status.failed)) x = true := by simp [hcase]
      rw [List.filter_cons, List.filter_cons, List.filter_cons,
        if_neg (by simp [h1]), if_neg (by simp [h2]), if_pos h3]
      simp only [List.length_cons]
      omega

lemma timeout_filter_eq (l : List TrialRecord)
    (hl : ∀ t ∈ l, t.outcome = Status.passed ∨ t.outcome = Status.failed ∨
      t.outcome = Status.timeout) :
    l.filter (fun t => decide (t.outcome ≠ Status.passed ∧
      t.outcome ≠ Status.failed)) =
    l.filter (fun t => decide (t.outcome = Status.timeout)) := by
  apply List.filter_congr
  intro t ht
  rcases hl t ht with hcase | hcase | hcase <;> simp [hcase]

lemma trials_outcome_cases (c : Cfg) (riskVal : ℚ) (tpd : ℕ)
    (u : ℕ → ℕ → ℚ) :
    ∀ t ∈ (List.range c.numSimulations).map
      (fun i => runTrial c riskVal tpd (u i)),
      t.outcome = Status.passed ∨ t.outcome = Status.failed ∨
      t.outcome = Status.timeout := by
  intro t ht
  simp only [List.mem_map] at ht
  obtain ⟨i, _, rfl⟩ := ht
  exact runTrial_outcome_cases c riskVal tpd (u i)

/-- C3: with `trial_count ≥ 1` the aggregation succeeds, every trial is
counted in exactly one of the Passed/Failed/Timeout buckets (the three
bucket sizes sum to the trial count), and the returned
Pass/Fail/Timeout rates sum to exactly 100 over exact rationals. -/
theorem C3_rates_sum_100 (c : Cfg) (riskVal : ℚ) (tpd : ℕ)
    (u : ℕ → ℕ → ℚ) (h : c.numSimulations ≠ 0) :
    ∃ r, runMonteCarlo c riskVal tpd u = some r ∧
      r.rawPassDays.length + r.rawFailDays.length +
        (r.rawPnL.filter
          (fun q => decide (q.2 = Status.timeout))).length =
        c.numSimulations ∧
      r.passRate + r.failRate + r.timeoutRate = 100 := by
  unfold runMonteCarlo
  rw [if_neg h]
  refine ⟨_, rfl, ?_, ?_⟩ <;>
    dsimp only <;>
    set trials := (List.range c.numSimulations).map
      (fun i => runTrial c riskVal tpd (u i)) with htr
  · have hcases := trials_outcome_cases c riskVal tpd u
    rw [← htr] at hcases
    have hpart := count_partition trials hcases
    have hto := timeout_filter_eq trials hcases
    have hlen : trials.length = c.numSimulations := by
      rw [htr, List.length_map, List.length_range]
    rw [List.length_map, List.length_map]
    have hmapfilter :
        (trials.map (fun t => (t.pnl, t.outcome))).filter
          (fun q => decide (q.2 = Status.timeout)) =
        (trials.filter (fun t => decide (t.outcome = Status.timeout))).map
          (fun t => (t.pnl, t.outcome)) := by
      rw [List.filter_map]
      rfl
    rw [hmapfilter, List.length_map, ← hto, hpart, hlen]
  · have hcases := trials_outcome_cases c riskVal tpd u
    rw [← htr] at hcases
    have hpart := count_partition trials hcases
    have hlen : trials.length = c.numSimulations := by
      rw [htr, List.length_map, List.length_range]
    rw [hlen] at hpart
    have hn : (c.numSimulations : ℚ) ≠ 0 := Nat.cast_ne_zero.mpr h
    have hcast : ((trials.filter
        (fun t => decide (t.outcome = Status.passed))).length : ℚ) +
        ((trials.filter
          (fun t => decide (t.outcome = Status.failed))).length : ℚ) +
        ((trials.filter (fun t => decide (t.outcome ≠ Status.passed ∧
          t.outcome ≠ Status.failed))).length : ℚ) =
        (c.numSimulations : ℚ) := by
      push_cast [← hpart]
      ring
    rw [div_mul_eq_mul_div, div_mul_eq_mul_div, div_mul_eq_mul_div,
      div_add_div_same, div_add_div_same, div_eq_iff hn]
    linarith [hcast]

/-! ### Streak-counter correctness -/

lemma maxRun_cons (b x : Bool) (xs : List Bool) :
    maxRun b (x :: xs) = max (headRun b (x :: xs)) (maxRun b xs) := rfl

lemma headRun_le_maxRun (b : Bool) (l : List Bool) :
    headRun b l ≤ maxRun b l := by
  cases l with
  | nil => exact le_refl _
  | cons x xs => exact le_max_left _ _

lemma foldl_streakStep_mw (l : List Bool) : ∀ s : Streaks, s.cw ≤ s.mw →
    (l.foldl streakStep s).mw =
      max s.mw (max (s.cw + headRun true l) (maxRun true l)) := by
  induction l with
  | nil =>
    intro s h
    simp only [List.foldl_nil, headRun, maxRun]
    omega
  | cons x xs ih =>
    intro s h
    rw [List.foldl_cons]
    cases x
    · have hstep : streakStep s false = ⟨0, s.cl + 1, s.mw, max s.ml (s.cl + 1)⟩ := by
        simp [streakStep]
      rw [hstep, ih ⟨0, s.cl + 1, s.mw, max s.ml (s.cl + 1)⟩ (by simp)]
      have hh := headRun_le_maxRun true xs
      simp [headRun, maxRun]
      omega
    · have hstep : streakStep s true = ⟨s.cw + 1, 0, max s.mw (s.cw + 1), s.ml⟩ := by
        simp [streakStep]
      rw [hstep, ih ⟨s.cw + 1, 0, max s.mw (s.cw + 1), s.ml⟩ (by simp)]
      simp [headRun, maxRun]
      omega

lemma foldl_streakStep_ml (l : List Bool) : ∀ s : Streaks, s.cl ≤ s.ml →
    (l.foldl streakStep s).ml =
      max s.ml (max (s.cl + headRun false l) (maxRun false l)) := by
  induction l with
  | nil =>
    intro s h
    simp only [List.foldl_nil, headRun, maxRun]
    omega
  | cons x xs ih =>
    intro s h
    rw [List.foldl_cons]
    cases x
    · have hstep : streakStep s false = ⟨0, s.cl + 1, s.mw, max s.ml (s.cl + 1)⟩ := by
        simp [streakStep]
      rw [hstep, ih ⟨0, s.cl + 1, s.mw, max s.ml (s.cl + 1)⟩ (by simp)]
      simp [headRun, maxRun]
      omega
    · have hstep : streakStep s true = ⟨s.cw + 1, 0, max s.mw (s.cw + 1), s.ml⟩ := by
        simp [streakStep]
      rw [hstep, ih ⟨s.cw + 1, 0, max s.mw (s.cw + 1), s.ml⟩ (by simp)]
      have hh := headRun_le_maxRun false xs
      simp [headRun, maxRun]
      omega

lemma streakRun_mw (l : List Bool) : (streakRun l).mw = maxRun true l := by
  have h := foldl_streakStep_mw l ⟨0, 0, 0, 0⟩ (le_refl 0)
  unfold streakRun
  rw [h]
  have hh := headRun_le_maxRun true l
  simp only
  omega

lemma streakRun_ml (l : List Bool) : (streakRun l).ml = maxRun false l := by
  have h := foldl_streakStep_ml l ⟨0, 0, 0, 0⟩ (le_refl 0)
  unfold streakRun
  rw [h]
  have hh := headRun_le_maxRun false l
  simp only
  omega

/-- The streak counters of a trial state in isolation. -/
def streaksOf (s : TrialState) : Streaks :=
  ⟨s.curWin, s.curLoss, s.maxWin, s.maxLoss⟩

lemma streakRun_append_one (l : List Bool) (b : Bool) :
    streakRun (l ++ [b]) = streakStep (streakRun l) b := by
  simp [streakRun, List.foldl_append]

lemma applyOutcome_streaks (c : Cfg) (riskVal : ℚ) (w : Bool)
    (s : TrialState) :
    streaksOf (applyOutcome c riskVal w s) = streakStep (streaksOf s) w ∧
    (applyOutcome c riskVal w s).used = s.used ++ [w] := by
  cases w <;> simp [applyOutcome, streakStep, streaksOf]

lemma applyHwm_streaks (c : Cfg) (s : TrialState) :
    streaksOf (applyHwm c s) = streaksOf s ∧
    (applyHwm c s).used = s.used := by
  unfold applyHwm
  split_ifs <;> exact ⟨rfl, rfl⟩

lemma checkExits_streaks (c : Cfg) (riskVal dailyStart : ℚ)
    (s : TrialState) :
    streaksOf (checkExits c riskVal dailyStart s).1 = streaksOf s ∧
    (checkExits c riskVal dailyStart s).1.used = s.used := by
  obtain ⟨st, hst⟩ := checkExits_shape c riskVal dailyStart s
  rw [hst]
  exact ⟨rfl, rfl⟩

/-- The streak counters always equal the streak fold of the executed
draw trace. -/
def StreakInv (s : TrialState) : Prop :=
  streaksOf s = streakRun s.used

lemma tradeStep_streakInv (c : Cfg) (riskVal dailyStart : ℚ)
    (u : ℕ → ℚ) (s : TrialState) (hs : StreakInv s) :
    StreakInv (tradeStep c riskVal dailyStart u s).1 := by
  unfold StreakInv tradeStep
  obtain ⟨ho1, ho2⟩ := applyOutcome_streaks c riskVal
    (decide (u s.idx < c.winRate)) s
  obtain ⟨hh1, hh2⟩ := applyHwm_streaks c
    (applyOutcome c riskVal (decide (u s.idx < c.winRate)) s)
  obtain ⟨hc1, hc2⟩ := checkExits_streaks c riskVal dailyStart
    (applyHwm c (applyOutcome c riskVal (decide (u s.idx < c.winRate)) s))
  rw [hc1, hc2, hh1, hh2, ho1, ho2, streakRun_append_one, hs]

lemma runTrades_streakInv (c : Cfg) (riskVal dailyStart : ℚ)
    (u : ℕ → ℚ) : ∀ (n : ℕ) (s : TrialState), StreakInv s →
    StreakInv (runTrades c riskVal dailyStart u n s)
  | 0, s, hs => hs
  | n + 1, s, hs => by
    rw [runTrades_succ]
    by_cases h : (tradeStep c riskVal dailyStart u s).2 = true
    · rw [if_pos h]
      exact tradeStep_streakInv _ _ _ _ _ hs
    · rw [if_neg h]
      exact runTrades_streakInv c riskVal dailyStart u n _
        (tradeStep_streakInv _ _ _ _ _ hs)

lemma runDays_streakInv (c : Cfg) (riskVal : ℚ) (tpd : ℕ)
    (u : ℕ → ℚ) : ∀ (n : ℕ) (s : TrialState), StreakInv s →
    StreakInv (runDays c riskVal tpd u n s).2
  | 0, s, hs => hs
  | n + 1, s, hs => by
    rw [runDays_succ]
    unfold runDay
    have hday := runTrades_streakInv c riskVal s.equity u tpd s hs
    by_cases h : (runTrades c riskVal s.equity u tpd s).status ≠
      Status.inProgress
    · rw [if_pos h]
      exact hday
    · rw [if_neg h]
      exact runDays_streakInv c riskVal tpd u n _ hday

/-- C10: a win resets the loss streak and a loss resets the win streak,
so after every trade at most one of the two current-streak counters is
nonzero; and the per-trial max-streak outputs equal the length of the
longest run of consecutive wins (resp. losses) in the trial's executed
draw sequence. -/
theorem C10_streak_counters :
    (∀ (c : Cfg) (riskVal dailyStart : ℚ) (u : ℕ → ℚ) (s : TrialState),
      (tradeStep c riskVal dailyStart u s).1.curWin = 0 ∨
      (tradeStep c riskVal dailyStart u s).1.curLoss = 0) ∧
    (∀ (c : Cfg) (riskVal : ℚ) (tpd : ℕ) (u : ℕ → ℚ),
      (runTrial c riskVal tpd u).maxWin =
        maxRun true (runTrial c riskVal tpd u).used ∧
      (runTrial c riskVal tpd u).maxLoss =
        maxRun false (runTrial c riskVal tpd u).used) := by
  constructor
  · intro c riskVal dailyStart u s
    set w := decide (u s.idx < c.winRate) with hw
    obtain ⟨ho1, _⟩ := applyOutcome_streaks c riskVal w s
    obtain ⟨hh1, _⟩ := applyHwm_streaks c (applyOutcome c riskVal w s)
    obtain ⟨hc1, _⟩ := checkExits_streaks c riskVal dailyStart
      (applyHwm c (applyOutcome c riskVal w s))
    have hstep : streaksOf (tradeStep c riskVal dailyStart u s).1 =
        streakStep (streaksOf s) w := by
      unfold tradeStep
      rw [← hw, hc1, hh1, ho1]
    have hcw : (tradeStep c riskVal dailyStart u s).1.curWin =
        (streakStep (streaksOf s) w).cw := by rw [← hstep]; rfl
    have hcl : (tradeStep c riskVal dailyStart u s).1.curLoss =
        (streakStep (streaksOf s) w).cl := by rw [← hstep]; rfl
    rw [hcw, hcl]
    cases w <;> simp [streakStep]
  · intro c riskVal tpd u
    have hinv : StreakInv (initState c) := rfl
    have h := runDays_streakInv c riskVal tpd u c.maxDays (initState c) hinv
    unfold StreakInv at h
    have hmw : (runDays c riskVal tpd u c.maxDays (initState c)).2.maxWin =
        (streakRun (runDays c riskVal tpd u c.maxDays
          (initState c)).2.used).mw := by rw [← h]; rfl
    have hml : (runDays c riskVal tpd u c.maxDays (initState c)).2.maxLoss =
        (streakRun (runDays c riskVal tpd u c.maxDays
          (initState c)).2.used).ml := by rw [← h]; rfl
    constructor
    · show (runDays c riskVal tpd u c.maxDays (initState c)).2.maxWin =
        maxRun true (runDays c riskVal tpd u c.maxDays (initState c)).2.used
      rw [hmw, streakRun_mw]
    · show (runDays c riskVal tpd u c.maxDays (initState c)).2.maxLoss =
        maxRun false (runDays c riskVal tpd u c.maxDays (initState c)).2.used
      rw [hml, streakRun_ml]

/-! ### Trajectory recorder properties -/

lemma lastOf_cons_ne {α : Type} (a : α) {l : List α} (h : l ≠ []) :
    (a :: l).getLast? = l.getLast? := by
  cases l with
  | nil => exact absurd rfl h
  | cons b m => exact List.getLast?_cons_cons

lemma runVizTrades_succ (c : Cfg) (riskVal dailyStart : ℚ) (u : ℕ → ℚ)
    (n : ℕ) (s : VizState) :
    runVizTrades c riskVal dailyStart u (n + 1) s =
      if (vizTradeStep c riskVal dailyStart u s).2.2 = true then
        ((vizTradeStep c riskVal dailyStart u s).1,
         (vizTradeStep c riskVal dailyStart u s).2.1)
      else
        runVizTrades c riskVal dailyStart u n
          (vizTradeStep c riskVal dailyStart u s).1 := rfl

/-- The viz exit cascade only ever rewrites the status field, to one of
the terminal statuses or leaving it unchanged. -/
lemma vizChecks_shape (c : Cfg) (riskVal dailyStart : ℚ) (s : VizState) :
    (vizChecks c riskVal dailyStart s).1 = s ∨
    (vizChecks c riskVal dailyStart s).1 = { s with status := .failed } ∨
    (vizChecks c riskVal dailyStart s).1 = { s with status := .passed } := by
  unfold vizChecks
  split_ifs <;> simp

/-- Statuses reachable by the visualization loop: never `In Progress`
(it starts at `Timeout` and is only ever set to `Failed`/`Passed`). -/
def VStat (s : VizState) : Prop :=
  s.status = Status.timeout ∨ s.status = Status.failed ∨
  s.status = Status.passed

lemma vizApply_status (c : Cfg) (riskVal : ℚ) (w : Bool) (s : VizState) :
    (vizApply c riskVal w s).status = s.status := by
  cases w <;> simp [vizApply]

lemma vizHwm_status (c : Cfg) (s : VizState) :
    (vizHwm c s).status = s.status := by
  unfold vizHwm
  split_ifs <;> rfl

lemma vizTradeStep_vstat (c : Cfg) (riskVal dailyStart : ℚ) (u : ℕ → ℚ)
    (s : VizState) (hs : VStat s) :
    VStat (vizTradeStep c riskVal dailyStart u s).1 := by
  unfold vizTradeStep
  rcases vizChecks_shape c riskVal dailyStart
    (vizHwm c (vizApply c riskVal (decide (u s.idx < c.winRate)) s)) with
    hc | hc | hc <;> rw [hc]
  · unfold VStat
    rw [vizHwm_status, vizApply_status]
    exact hs
  · exact Or.inr (Or.inl rfl)
  · exact Or.inr (Or.inr rfl)

lemma runVizTrades_vstat (c : Cfg) (riskVal dailyStart : ℚ)
    (u : ℕ → ℚ) : ∀ (n : ℕ) (s : VizState), VStat s →
    VStat (runVizTrades c riskVal dailyStart u n s).1
  | 0, s, hs => hs
  | n + 1, s, hs => by
    rw [runVizTrades_succ]
    by_cases h : (vizTradeStep c riskVal dailyStart u s).2.2 = true
    · rw [if_pos h]
      exact vizTradeStep_vstat _ _ _ _ _ hs
    · rw [if_neg h]
      exact runVizTrades_vstat c riskVal dailyStart u n _
        (vizTradeStep_vstat _ _ _ _ _ hs)

lemma runVizDays_succ (c : Cfg) (riskVal : ℚ) (tpd : ℕ) (u : ℕ → ℚ)
    (simId day fuel : ℕ) (s : VizState) (acc : List CurvePoint) :
    runVizDays c riskVal tpd u simId day (fuel + 1) s acc =
      if (runVizTrades c riskVal s.equity u tpd s).2 ≠ Status.inProgress then
        (acc ++ [⟨day, (runVizTrades c riskVal s.equity u tpd s).1.equity,
          simId, (runVizTrades c riskVal s.equity u tpd s).1.status⟩],
         (runVizTrades c riskVal s.equity u tpd s).1)
      else
        runVizDays c riskVal tpd u simId (day + 1) fuel
          (runVizTrades c riskVal s.equity u tpd s).1
          (acc ++ [⟨day, (runVizTrades c riskVal s.equity u tpd s).1.equity,
            simId, (runVizTrades c riskVal s.equity u tpd s).1.status⟩]) :=
  rfl

/-- Structure of the curve built by the visualization day loop: it
extends the accumulator with one point per executed day, with
consecutive day indices, each carrying a non-`InProgress` status, and
the last appended point carrying the final state's status. -/
lemma runVizDays_spec (c : Cfg) (riskVal : ℚ) (tpd : ℕ) (u : ℕ → ℚ)
    (simId : ℕ) : ∀ (fuel day : ℕ) (s : VizState) (acc : List CurvePoint),
    VStat s →
    ∃ tail, (runVizDays c riskVal tpd u simId day fuel s acc).1 =
        acc ++ tail ∧
      tail.map CurvePoint.day = List.range' day tail.length ∧
      (1 ≤ fuel → tail ≠ []) ∧
      (∀ pt ∈ tail, pt.status = Status.timeout ∨
        pt.status = Status.failed ∨ pt.status = Status.passed) ∧
      (1 ≤ fuel → tail.getLast?.map CurvePoint.status =
        some (runVizDays c riskVal tpd u simId day fuel s acc).2.status)
  | 0, day, s, acc, hs =>
    ⟨[], by simp [runVizDays], rfl, by omega, by simp, by omega⟩
  | fuel + 1, day, s, acc, hs => by
    rw [runVizDays_succ]
    have hst := runVizTrades_vstat c riskVal s.equity u tpd s hs
    by_cases h : (runVizTrades c riskVal s.equity u tpd s).2 ≠
      Status.inProgress
    · rw [if_pos h]
      refine ⟨[⟨day, (runVizTrades c riskVal s.equity u tpd s).1.equity,
        simId, (runVizTrades c riskVal s.equity u tpd s).1.status⟩],
        rfl, rfl, fun _ => by simp, ?_, fun _ => rfl⟩
      intro pt hpt
      simp only [List.mem_singleton] at hpt
      rw [hpt]
      exact hst
    · rw [if_neg h]
      obtain ⟨tail', h1, h2, h3, h4, h5⟩ := runVizDays_spec c riskVal tpd u
        simId fuel (day + 1)
        (runVizTrades c riskVal s.equity u tpd s).1
        (acc ++ [⟨day, (runVizTrades c riskVal s.equity u tpd s).1.equity,
          simId, (runVizTrades c riskVal s.equity u tpd s).1.status⟩]) hst
      refine ⟨⟨day, (runVizTrades c riskVal s.equity u tpd s).1.equity,
        simId, (runVizTrades c riskVal s.equity u tpd s).1.status⟩ :: tail',
        by rw [h1]; simp, ?_, fun _ => by simp, ?_, ?_⟩
      · simp only [List.map_cons, List.length_cons]
        rw [h2]
        rfl
      · intro pt hpt
        rcases List.mem_cons.mp hpt with hpt | hpt
        · rw [hpt]
          exact hst
        · exact h4 pt hpt
      · intro _
        cases fuel with
        | zero =>
          have h6 : acc ++ [(⟨day,
              (runVizTrades c riskVal s.equity u tpd s).1.equity, simId,
              (runVizTrades c riskVal s.equity u tpd s).1.status⟩ :
                CurvePoint)] ++ tail' =
              acc ++ [(⟨day,
              (runVizTrades c riskVal s.equity u tpd s).1.equity, simId,
              (runVizTrades c riskVal s.equity u tpd s).1.status⟩ :
                CurvePoint)] := h1.symm
          have h7 : tail' = [] := by
            have := h6.trans (List.append_nil _).symm
            exact List.append_cancel_left this
          subst h7
          rfl
        | succ m =>
          have htail' := h3 (by omega)
          rw [lastOf_cons_ne _ htail']
          exact h5 (by omega)

lemma vizTrial_eq (c : Cfg) (riskVal : ℚ) (tpd : ℕ) (u : ℕ → ℚ)
    (simId : ℕ) :
    vizTrial c riskVal tpd u simId =
      (runVizDays c riskVal tpd u simId 1 c.maxDays
        ⟨c.accountSize, c.accountSize, c.accountSize - c.maxTotalDd,
          .timeout, 0⟩
        [⟨0, c.accountSize, simId, .inProgress⟩]).1.map
        (fun pt => { pt with status :=
          (((runVizDays c riskVal tpd u simId 1 c.maxDays
            ⟨c.accountSize, c.accountSize, c.accountSize - c.maxTotalDd,
              .timeout, 0⟩
            [⟨0, c.accountSize, simId, .inProgress⟩]).1.getLast?).getD
              ⟨0, 0, 0, .inProgress⟩).status }) := rfl

lemma map_day_backfill (l : List CurvePoint) (fs : Status) :
    (l.map (fun pt => { pt with status := fs })).map CurvePoint.day =
      l.map CurvePoint.day := by
  rw [List.map_map]
  rfl

lemma length_backfill (l : List CurvePoint) (fs : Status) :
    (l.map (fun pt => { pt with status := fs })).length = l.length :=
  List.length_map _ _

/-- C9: in trajectory mode each trial's recorded curve starts with a
day-0 point whose equity equals `account_size`, contains one point per
day boundary (day indices are exactly `0, 1, ..., len-1`), and after
back-filling every point carries one and the same terminal label — the
final status of the simulated trial state, which is Passed, Failed, or
Timeout (never `In Progress`). -/
theorem C9_trajectory_points (c : Cfg) (riskVal : ℚ) (tpd : ℕ)
    (u : ℕ → ℚ) (simId : ℕ) (hdays : 1 ≤ c.maxDays) :
    ∃ st, (st = Status.passed ∨ st = Status.failed ∨
        st = Status.timeout) ∧
      st = (runVizDays c riskVal tpd u simId 1 c.maxDays
        ⟨c.accountSize, c.accountSize, c.accountSize - c.maxTotalDd,
          .timeout, 0⟩
        [⟨0, c.accountSize, simId, .inProgress⟩]).2.status ∧
      (vizTrial c riskVal tpd u simId).head? =
        some ⟨0, c.accountSize, simId, st⟩ ∧
      (vizTrial c riskVal tpd u simId).map CurvePoint.day =
        List.range (vizTrial c riskVal tpd u simId).length ∧
      (∀ pt ∈ vizTrial c riskVal tpd u simId, pt.status = st) := by
  obtain ⟨tail, h1, h2, h3, h4, h5⟩ := runVizDays_spec c riskVal tpd u simId
    c.maxDays 1
    ⟨c.accountSize, c.accountSize, c.accountSize - c.maxTotalDd,
      .timeout, 0⟩
    [⟨0, c.accountSize, simId, .inProgress⟩] (Or.inl rfl)
  have htail := h3 hdays
  have hlast := h5 hdays
  obtain ⟨q, hq, hqs⟩ := Option.map_eq_some'.mp hlast
  have hqmem : q ∈ tail := by
    rw [List.getLast?_eq_getLast_of_ne_nil htail] at hq
    have hql := Option.some_injective _ hq.symm
    rw [hql]
    exact List.getLast_mem htail
  have hcurveLast :
      (runVizDays c riskVal tpd u simId 1 c.maxDays
        ⟨c.accountSize, c.accountSize, c.accountSize - c.maxTotalDd,
          .timeout, 0⟩
        [⟨0, c.accountSize, simId, .inProgress⟩]).1.getLast? = some q := by
    rw [h1, List.getLast?_append_of_ne_nil _ htail]
    exact hq
  refine ⟨q.status, ?_, hqs, ?_, ?_, ?_⟩
  · rcases h4 q hqmem with hcase | hcase | hcase <;> simp [hcase]
  · rw [vizTrial_eq, hcurveLast, h1]
    rfl
  · rw [vizTrial_eq, map_day_backfill, length_backfill, h1,
      List.map_append, h2]
    have hlen : ([(⟨0, c.accountSize, simId, .inProgress⟩ : CurvePoint)] ++
        tail).length = tail.length + 1 := by
      simp [Nat.add_comm]
    rw [hlen, List.range_eq_range']
    rfl
  · intro pt hpt
    rw [vizTrial_eq, hcurveLast] at hpt
    obtain ⟨pt0, _, rfl⟩ := List.mem_map.mp hpt
    rfl

/-- Witness for C9 at a concrete input: one day, one winning trade,
trial times out; the recorded curve is the two back-filled points of
days 0 and 1. -/
theorem C9_trajectory_points_witness :
    1 ≤ (1 : ℕ) ∧
    ∃ st, (st = Status.passed ∨ st = Status.failed ∨
        st = Status.timeout) ∧
      st = (runVizDays ⟨1000, 1000, 100, 100, false, 1, 1, 0, 1, 1⟩ 10 1
        (fun _ => 0) 3 1 1 ⟨1000, 1000, 1000 - 100, .timeout, 0⟩
        [⟨0, 1000, 3, .inProgress⟩]).2.status ∧
      (vizTrial ⟨1000, 1000, 100, 100, false, 1, 1, 0, 1, 1⟩ 10 1
        (fun _ => 0) 3).head? = some ⟨0, 1000, 3, st⟩ ∧
      (vizTrial ⟨1000, 1000, 100, 100, false, 1, 1, 0, 1, 1⟩ 10 1
        (fun _ => 0) 3).map CurvePoint.day =
        List.range (vizTrial ⟨1000, 1000, 100, 100, false, 1, 1, 0, 1, 1⟩
          10 1 (fun _ => 0) 3).length ∧
      (∀ pt ∈ vizTrial ⟨1000, 1000, 100, 100, false, 1, 1, 0, 1, 1⟩ 10 1
        (fun _ => 0) 3, pt.status = st) := by
  refine ⟨Nat.le_refl 1, ?_⟩
  have h := C9_trajectory_points ⟨1000, 1000, 100, 100, false, 1, 1, 0, 1, 1⟩
    10 1 (fun _ => 0) 3 (Nat.le_refl 1)
  exact h

/-! ### Concrete fixtures used by witnesses and counterexamples -/

/-- Small two-trial scenario: account 1000, target 30, both drawdown
limits 500, Static mode, win rate 1/2, reward 1:1, breaker off,
2 trials, 7 days. -/
def cfgA : Cfg := ⟨1000, 30, 500, 500, false, 1/2, 1, 0, 2, 7⟩

/-- Draw family for `cfgA` (risk 10, 1 trade/day): trial 0 loses twice
then wins five times (Passed on day 7 with loss streak 2); trial 1
loses every day (Timeout with loss streak 7). -/
def drawsA : ℕ → ℕ → ℚ :=
  fun i j => if i = 0 then (if j < 2 then 3/4 else 1/4) else 3/4

/-- Witness for C3 at a concrete input (`cfgA` has 2 trials). -/
theorem C3_rates_sum_100_witness :
    cfgA.numSimulations ≠ 0 ∧
    ∃ r, runMonteCarlo cfgA 10 1 drawsA = some r ∧
      r.rawPassDays.length + r.rawFailDays.length +
        (r.rawPnL.filter
          (fun q => decide (q.2 = Status.timeout))).length =
        cfgA.numSimulations ∧
      r.passRate + r.failRate + r.timeoutRate = 100 :=
  ⟨by decide, C3_rates_sum_100 cfgA 10 1 drawsA (by decide)⟩

/-! ### C5: deterministic pass under `win_rate = 1` -/

/-- The configuration of the C5 counterexample: `win_rate = 1`,
`reward_multiple = 1 > 0`, but `profit_target = 1000` with risk 10 and
only 1 day of 1 trade available. -/
def cfgC5 : Cfg := ⟨1000, 1000, 100, 100, false, 1, 1, 0, 1, 1⟩

/-- Counterexample to C5 as stated: a configuration with
`win_rate = 1.0` and `reward_multiple = 1 > 0` whose single trial ends
in Timeout, not Passed — `max_days = 1` runs out long before the
`ceil(1000 / (10 × 1 × 1)) = 100` winning trades needed. -/
theorem C5_counterexample :
    cfgC5.winRate = 1 ∧ 0 < cfgC5.rewardRatio ∧
    (runTrial cfgC5 10 1 (fun _ => 0)).outcome = Status.timeout ∧
    Status.timeout ≠ Status.passed := by
  refine ⟨by norm_num [cfgC5], by norm_num [cfgC5], ?_, by decide⟩
  norm_num [runTrial, runDays, runDay, runTrades, tradeStep, checkExits,
    applyHwm, applyOutcome, initState, cfgC5, rewardPerTrade,
    personalLimitUsd]

/-- Parameter sanity for the all-wins analysis: `win_rate = 1`,
positive risk and reward multiple, positive profit target and total
drawdown, non-negative daily drawdown. -/
def AllWinCfg (c : Cfg) (riskVal : ℚ) : Prop :=
  c.winRate = 1 ∧ 0 < riskVal ∧ 0 < c.rewardRatio ∧
  0 < c.profitTarget ∧ 0 < c.maxTotalDd ∧ 0 ≤ c.maxDailyDd

/-- State invariant along the all-wins trajectory after `m` winning
trades: still in progress, equity grown by `m` rewards, equity at the
high-water mark, floor invariant. -/
def AllWinInv (c : Cfg) (riskVal : ℚ) (m : ℕ) (s : TrialState) : Prop :=
  s.status = Status.inProgress ∧
  s.equity = c.accountSize + (m : ℚ) * rewardPerTrade c riskVal ∧
  s.hwm = s.equity ∧ DdInv c s

lemma rewardPerTrade_pos (c : Cfg) (riskVal : ℚ)
    (hc : AllWinCfg c riskVal) : 0 < rewardPerTrade c riskVal :=
  mul_pos hc.2.1 hc.2.2.1

lemma allwin_tradeStep (c : Cfg) (riskVal : ℚ) (u : ℕ → ℚ)
    (hc : AllWinCfg c riskVal) (hdraw : ∀ i, 0 ≤ u i ∧ u i < 1)
    (m : ℕ) (s : TrialState) (dailyStart : ℚ)
    (hInv : AllWinInv c riskVal m s) (hds : dailyStart ≤ s.equity) :
    ((((m : ℚ) + 1) * rewardPerTrade c riskVal ≥ c.profitTarget →
      (tradeStep c riskVal dailyStart u s).1.status = Status.passed ∧
      (tradeStep c riskVal dailyStart u s).2 = true) ∧
     (((m : ℚ) + 1) * rewardPerTrade c riskVal < c.profitTarget →
      AllWinInv c riskVal (m + 1) (tradeStep c riskVal dailyStart u s).1 ∧
      (tradeStep c riskVal dailyStart u s).2 = false)) ∧
    dailyStart ≤ (tradeStep c riskVal dailyStart u s).1.equity := by
  obtain ⟨hst, heq, hhwm, hdd⟩ := hInv
  have hrw := rewardPerTrade_pos c riskVal hc
  have hwin : decide (u s.idx < c.winRate) = true := by
    rw [hc.1]
    exact decide_eq_true (hdraw s.idx).2
  have h1 : applyOutcome c riskVal (decide (u s.idx < c.winRate)) s =
      { s with
        curWin := s.curWin + 1, curLoss := 0
        maxWin := max s.maxWin (s.curWin + 1)
        equity := s.equity + rewardPerTrade c riskVal
        idx := s.idx + 1, used := s.used ++ [true] } := by
    rw [hwin]
    simp [applyOutcome]
  have h2 : applyHwm c (applyOutcome c riskVal
      (decide (u s.idx < c.winRate)) s) =
      { s with
        curWin := s.curWin + 1, curLoss := 0
        maxWin := max s.maxWin (s.curWin + 1)
        equity := s.equity + rewardPerTrade c riskVal
        hwm := s.equity + rewardPerTrade c riskVal
        ddLimit := if c.trailing then
          s.equity + rewardPerTrade c riskVal - c.maxTotalDd
          else s.ddLimit
        idx := s.idx + 1, used := s.used ++ [true] } := by
    rw [h1]
    unfold applyHwm
    rw [if_pos (by dsimp only; rw [hhwm]; linarith)]
  have heq' : s.equity + rewardPerTrade c riskVal =
      c.accountSize + ((m : ℚ) + 1) * rewardPerTrade c riskVal := by
    rw [heq]
    ring
  -- the post-update state cannot be at or below the floor
  have hfloor : ¬ (s.equity + rewardPerTrade c riskVal ≤
      (if c.trailing then
        s.equity + rewardPerTrade c riskVal - c.maxTotalDd
        else s.ddLimit)) := by
    cases htr : c.trailing with
    | true =>
      rw [if_pos rfl]
      have := hc.2.2.2.2.1
      intro hcontra
      linarith
    | false =>
      rw [if_neg (by simp)]
      rw [hdd.2 htr]
      have hmr : (0 : ℚ) ≤ (m : ℚ) * rewardPerTrade c riskVal :=
        mul_nonneg (Nat.cast_nonneg m) (le_of_lt hrw)
      have := hc.2.2.2.2.1
      intro hcontra
      rw [heq] at hcontra
      linarith
  -- the day's running loss is strictly negative after a win
  have hdaily : dailyStart - (s.equity + rewardPerTrade c riskVal) < 0 := by
    linarith
  have hndaily : ¬ (dailyStart - (s.equity + rewardPerTrade c riskVal) ≥
      c.maxDailyDd) := by
    have := hc.2.2.2.2.2
    intro hcontra
    linarith
  have hnpers : ¬ (personalLimitUsd c riskVal > 0 ∧
      dailyStart - (s.equity + rewardPerTrade c riskVal) ≥
        personalLimitUsd c riskVal) := by
    rintro ⟨hp1, hp2⟩
    linarith
  unfold tradeStep
  rw [h2]
  unfold checkExits
  rw [if_neg (by dsimp only; exact hfloor)]
  rw [if_neg (by dsimp only; exact hndaily)]
  rw [if_neg (by dsimp only; exact hnpers)]
  by_cases htgt : s.equity + rewardPerTrade c riskVal ≥
      c.accountSize + c.profitTarget
  · rw [if_pos (by dsimp only; exact htgt)]
    refine ⟨⟨fun _ => ⟨rfl, rfl⟩, fun hlt => absurd htgt ?_⟩, ?_⟩
    · rw [heq']
      intro hcontra
      linarith
    · show dailyStart ≤ s.equity + rewardPerTrade c riskVal
      linarith
  · rw [if_neg (by dsimp only; exact htgt)]
    refine ⟨⟨fun hge => absurd htgt ?_, fun hlt => ⟨⟨hst, ?_, rfl, ?_⟩, rfl⟩⟩,
      ?_⟩
    · intro hcontra
      rw [heq'] at hcontra
      exact hcontra (by linarith)
    · show s.equity + rewardPerTrade c riskVal =
        c.accountSize + ((m + 1 : ℕ) : ℚ) * rewardPerTrade c riskVal
      rw [heq']
      push_cast
      ring
    · constructor
      · intro htr
        show (if c.trailing = true then
          s.equity + rewardPerTrade c riskVal - c.maxTotalDd
          else s.ddLimit) =
          s.equity + rewardPerTrade c riskVal - c.maxTotalDd
        rw [if_pos htr]
      · intro htr
        show (if c.trailing = true then
          s.equity + rewardPerTrade c riskVal - c.maxTotalDd
          else s.ddLimit) = c.accountSize - c.maxTotalDd
        rw [if_neg (by simp [htr])]
        exact hdd.2 htr
    · show dailyStart ≤ s.equity + rewardPerTrade c riskVal
      linarith

lemma runDays_days_le (c : Cfg) (riskVal : ℚ) (tpd : ℕ) (u : ℕ → ℚ) :
    ∀ (n : ℕ) (s : TrialState), (runDays c riskVal tpd u n s).1 ≤ n
  | 0, _ => le_refl 0
  | n + 1, s => by
    rw [runDays_succ]
    by_cases h : (runDay c riskVal tpd u s).status ≠ Status.inProgress
    · rw [if_pos h]
      omega
    · rw [if_neg h]
      have := runDays_days_le c riskVal tpd u n (runDay c riskVal tpd u s)
      omega

/-- Once the day loop has terminated within `n` days, running it with
more fuel changes nothing (the `break` at line 129 fires). -/
lemma runDays_stable (c : Cfg) (riskVal : ℚ) (tpd : ℕ) (u : ℕ → ℚ) :
    ∀ (n k : ℕ) (s : TrialState), 1 ≤ n →
    (runDays c riskVal tpd u n s).2.status ≠ Status.inProgress →
    runDays c riskVal tpd u (n + k) s = runDays c riskVal tpd u n s
  | 0, _, _, h1, _ => absurd h1 (by omega)
  | n + 1, k, s, _, hterm => by
    have hsucc : n + 1 + k = (n + k) + 1 := by omega
    rw [hsucc, runDays_succ, runDays_succ]
    by_cases h : (runDay c riskVal tpd u s).status ≠ Status.inProgress
    · rw [if_pos h, if_pos h]
    · rw [if_neg h, if_neg h]
      cases n with
      | zero =>
        exfalso
        rw [runDays_succ, if_neg h] at hterm
        exact hterm (not_not.mp h)
      | succ m =>
        have hterm' : (runDays c riskVal tpd u (m + 1)
            (runDay c riskVal tpd u s)).2.status ≠ Status.inProgress := by
          rw [runDays_succ, if_neg h] at hterm
          exact hterm
        rw [runDays_stable c riskVal tpd u (m + 1) k
          (runDay c riskVal tpd u s) (by omega) hterm']

lemma allwin_runTrades (c : Cfg) (riskVal : ℚ) (u : ℕ → ℚ)
    (hc : AllWinCfg c riskVal) (hdraw : ∀ i, 0 ≤ u i ∧ u i < 1) :
    ∀ (j m : ℕ) (s : TrialState) (dailyStart : ℚ),
    AllWinInv c riskVal m s → dailyStart ≤ s.equity →
    (m : ℚ) * rewardPerTrade c riskVal < c.profitTarget →
    ((((m + j : ℕ) : ℚ)) * rewardPerTrade c riskVal ≥ c.profitTarget →
      (runTrades c riskVal dailyStart u j s).status = Status.passed) ∧
    ((((m + j : ℕ) : ℚ)) * rewardPerTrade c riskVal < c.profitTarget →
      AllWinInv c riskVal (m + j) (runTrades c riskVal dailyStart u j s))
  | 0, m, s, dailyStart, hInv, hds, hlt => by
    constructor
    · intro hge
      push_cast at hge
      linarith
    · intro _
      exact hInv
  | j + 1, m, s, dailyStart, hInv, hds, hlt => by
    have hrw := rewardPerTrade_pos c riskVal hc
    have hts := allwin_tradeStep c riskVal u hc hdraw m s dailyStart hInv hds
    rw [runTrades_succ]
    by_cases hge1 : ((m : ℚ) + 1) * rewardPerTrade c riskVal ≥
        c.profitTarget
    · obtain ⟨hp, hstop⟩ := hts.1.1 hge1
      rw [if_pos hstop]
      constructor
      · intro _
        exact hp
      · intro hlt'
        exfalso
        push_cast at hlt'
        have hmono : ((m : ℚ) + 1) * rewardPerTrade c riskVal ≤
            ((m : ℚ) + (j : ℚ) + 1) * rewardPerTrade c riskVal := by
          have : (0 : ℚ) ≤ (j : ℚ) := Nat.cast_nonneg j
          nlinarith
        linarith
    · push_neg at hge1
      obtain ⟨hInv', hstop⟩ := hts.1.2 hge1
      rw [if_neg (by simp [hstop])]
      have hds' : dailyStart ≤ (tradeStep c riskVal dailyStart u s).1.equity :=
        hts.2
      have hlt1 : ((m + 1 : ℕ) : ℚ) * rewardPerTrade c riskVal <
          c.profitTarget := by
        push_cast
        linarith
      have hrec := allwin_runTrades c riskVal u hc hdraw j (m + 1)
        (tradeStep c riskVal dailyStart u s).1 dailyStart hInv' hds' hlt1
      have hcast : ((m + 1 + j : ℕ) : ℚ) = ((m + (j + 1) : ℕ) : ℚ) := by
        push_cast
        ring
      constructor
      · intro hge
        apply hrec.1
        rw [hcast]
        exact hge
      · intro hlt'
        have hmj : m + 1 + j = m + (j + 1) := by omega
        rw [← hmj]
        apply hrec.2
        rw [hcast]
        exact hlt'

lemma allwin_runDays (c : Cfg) (riskVal : ℚ) (tpd : ℕ) (u : ℕ → ℚ)
    (hc : AllWinCfg c riskVal) (hdraw : ∀ i, 0 ≤ u i ∧ u i < 1) :
    ∀ (fuel m : ℕ) (s : TrialState),
    AllWinInv c riskVal m s →
    (m : ℚ) * rewardPerTrade c riskVal < c.profitTarget →
    ((((m + fuel * tpd : ℕ) : ℚ)) * rewardPerTrade c riskVal ≥
      c.profitTarget) →
    (runDays c riskVal tpd u fuel s).2.status = Status.passed
  | 0, m, s, hInv, hlt, hge => by
    exfalso
    push_cast at hge
    nlinarith [hge, hlt]
  | fuel + 1, m, s, hInv, hlt, hge => by
    rw [runDays_succ]
    unfold runDay
    have ht := allwin_runTrades c riskVal u hc hdraw tpd m s s.equity hInv
      (le_refl _) hlt
    by_cases hgd : (((m + tpd : ℕ) : ℚ)) * rewardPerTrade c riskVal ≥
        c.profitTarget
    · have hp := ht.1 hgd
      rw [if_pos (by simp [hp])]
      exact hp
    · push_neg at hgd
      have hInv' := ht.2 hgd
      rw [if_neg (by simp [hInv'.1])]
      have hge' : ((((m + tpd) + fuel * tpd : ℕ) : ℚ)) *
          rewardPerTrade c riskVal ≥ c.profitTarget := by
        have : m + tpd + fuel * tpd = m + (fuel + 1) * tpd := by ring
        rw [this]
        exact hge
      exact allwin_runDays c riskVal tpd u hc hdraw fuel (m + tpd)
        (runTrades c riskVal s.equity u tpd s) hInv' hgd hge'

/-- The day bound claimed by the spec:
`ceil(profit_target / (risk_per_trade × reward_multiple × trades_per_day))`. -/
def winsNeededDays (c : Cfg) (riskVal : ℚ) (tpd : ℕ) : ℕ :=
  ⌈c.profitTarget / (riskVal * c.rewardRatio * (tpd : ℚ))⌉₊

/-- C5 as amended: under `win_rate = 1.0` and `reward_multiple > 0` —
together with the configuration sanity the spec's data model requires
(`risk_per_trade > 0`, `trades_per_day ≥ 1`, positive profit target and
total drawdown, non-negative daily drawdown, draws in `[0,1)`) and
enough days (`max_days ≥ ceil(profit_target / (risk × reward_multiple ×
trades_per_day))`), every trial ends Passed within that many days,
independently of the draws. -/
theorem C5_amended_deterministic_pass (c : Cfg) (riskVal : ℚ) (tpd : ℕ)
    (u : ℕ → ℚ) (hc : AllWinCfg c riskVal)
    (hdraw : ∀ i, 0 ≤ u i ∧ u i < 1) (htpd : 1 ≤ tpd)
    (hN : winsNeededDays c riskVal tpd ≤ c.maxDays) :
    (runTrial c riskVal tpd u).outcome = Status.passed ∧
    (runTrial c riskVal tpd u).days ≤ winsNeededDays c riskVal tpd := by
  have hrw := rewardPerTrade_pos c riskVal hc
  have htpdQ : (0 : ℚ) < (tpd : ℚ) := by exact_mod_cast htpd
  have hpos : (0 : ℚ) < riskVal * c.rewardRatio * (tpd : ℚ) :=
    mul_pos (mul_pos hc.2.1 hc.2.2.1) htpdQ
  have hNceil : c.profitTarget / (riskVal * c.rewardRatio * (tpd : ℚ)) ≤
      ((winsNeededDays c riskVal tpd : ℕ) : ℚ) := Nat.le_ceil _
  rw [div_le_iff₀ hpos] at hNceil
  have hNlarge : ((((0 + winsNeededDays c riskVal tpd * tpd : ℕ) : ℚ)) *
      rewardPerTrade c riskVal ≥ c.profitTarget) := by
    push_cast
    unfold rewardPerTrade
    nlinarith
  have hInit : AllWinInv c riskVal 0 (initState c) := by
    refine ⟨rfl, by simp [initState], rfl, ⟨fun _ => rfl, fun _ => rfl⟩⟩
  have hlt0 : ((0 : ℕ) : ℚ) * rewardPerTrade c riskVal < c.profitTarget := by
    simp only [Nat.cast_zero, zero_mul]
    exact hc.2.2.2.1
  have hpass := allwin_runDays c riskVal tpd u hc hdraw
    (winsNeededDays c riskVal tpd) 0 (initState c) hInit
    (by simpa using hlt0) hNlarge
  have hN1 : 1 ≤ winsNeededDays c riskVal tpd := by
    have : 0 < c.profitTarget / (riskVal * c.rewardRatio * (tpd : ℚ)) :=
      div_pos hc.2.2.2.1 hpos
    exact Nat.one_le_iff_ne_zero.mpr (by
      intro hz
      unfold winsNeededDays at hz
      rw [Nat.ceil_eq_zero] at hz
      linarith)
  have hstable := runDays_stable c riskVal tpd u
    (winsNeededDays c riskVal tpd) (c.maxDays - winsNeededDays c riskVal tpd)
    (initState c) hN1 (by rw [hpass]; simp)
  have hmd : winsNeededDays c riskVal tpd +
      (c.maxDays - winsNeededDays c riskVal tpd) = c.maxDays := by omega
  rw [hmd] at hstable
  constructor
  · show (if (runDays c riskVal tpd u c.maxDays (initState c)).2.status =
        Status.inProgress then Status.timeout
      else (runDays c riskVal tpd u c.maxDays (initState c)).2.status) =
      Status.passed
    rw [hstable, hpass]
    simp
  · show (runDays c riskVal tpd u c.maxDays (initState c)).1 ≤
      winsNeededDays c riskVal tpd
    rw [hstable]
    exact runDays_days_le c riskVal tpd u _ _

/-- Witness for the amended C5 at a concrete input: account 1000,
target 30, risk 10, 1:1 reward, 1 trade/day, 5 days available,
`ceil(30/10) = 3` days needed; the all-zero draw stream gives Passed in
at most 3 days. -/
theorem C5_amended_deterministic_pass_witness :
    AllWinCfg ⟨1000, 30, 100, 100, false, 1, 1, 0, 1, 5⟩ 10 ∧
    (∀ i : ℕ, 0 ≤ (fun _ : ℕ => (0 : ℚ)) i ∧ (fun _ : ℕ => (0 : ℚ)) i < 1) ∧
    1 ≤ 1 ∧
    winsNeededDays ⟨1000, 30, 100, 100, false, 1, 1, 0, 1, 5⟩ 10 1 ≤ 5 ∧
    (runTrial ⟨1000, 30, 100, 100, false, 1, 1, 0, 1, 5⟩ 10 1
      (fun _ => 0)).outcome = Status.passed ∧
    (runTrial ⟨1000, 30, 100, 100, false, 1, 1, 0, 1, 5⟩ 10 1
      (fun _ => 0)).days ≤
      winsNeededDays ⟨1000, 30, 100, 100, false, 1, 1, 0, 1, 5⟩ 10 1 := by
  have hc : AllWinCfg ⟨1000, 30, 100, 100, false, 1, 1, 0, 1, 5⟩ 10 := by
    refine ⟨rfl, by norm_num, by norm_num, by norm_num, by norm_num,
      by norm_num⟩
  have hdraw : ∀ i : ℕ, 0 ≤ (fun _ : ℕ => (0 : ℚ)) i ∧
      (fun _ : ℕ => (0 : ℚ)) i < 1 := fun _ => ⟨le_refl 0, by norm_num⟩
  have hN : winsNeededDays ⟨1000, 30, 100, 100, false, 1, 1, 0, 1, 5⟩
      10 1 ≤ 5 := by
    unfold winsNeededDays
    norm_num
  have h := C5_amended_deterministic_pass
    ⟨1000, 30, 100, 100, false, 1, 1, 0, 1, 5⟩ 10 1 (fun _ => 0)
    hc hdraw (le_refl 1) (by exact hN)
  exact ⟨hc, hdraw, le_refl 1, hN, h.1, h.2⟩

/-! ### C7: the sweep sorts its inputs -/

lemma runMonteCarlo_fields (c : Cfg) (riskVal : ℚ) (tpd : ℕ)
    (u : ℕ → ℕ → ℚ) (h : c.numSimulations ≠ 0) :
    ∃ r, runMonteCarlo c riskVal tpd u = some r ∧
      r.riskUsd = riskVal ∧ r.tradesPerDay = tpd := by
  unfold runMonteCarlo
  rw [if_neg h]
  exact ⟨_, rfl, rfl, rfl⟩

lemma mapM_proj {α β γ : Type} (f : α → Option β) (proj : β → γ)
    (g : α → γ) (hf : ∀ a, ∃ b, f a = some b ∧ proj b = g a) :
    ∀ l : List α, ∃ bl, l.mapM f = some bl ∧
      bl.map proj = l.map g ∧ bl.length = l.length
  | [] => ⟨[], rfl, rfl, rfl⟩
  | a :: l => by
    obtain ⟨b, hb, hpb⟩ := hf a
    obtain ⟨bl, hbl, hmap, hlen⟩ := mapM_proj f proj g hf l
    refine ⟨b :: bl, ?_, ?_, ?_⟩
    · rw [List.mapM_cons, hb, hbl]
      rfl
    · simp [hmap, hpb]
    · simp [hlen]

lemma sweepCells_length (riskList : List ℚ) (tradesList : List ℤ) :
    (sweepCells riskList tradesList).length =
      riskList.length * tradesList.length := by
  induction riskList with
  | nil => simp [sweepCells]
  | cons r rl ih =>
    simp only [sweepCells, List.flatMap_cons, List.length_append,
      List.length_map, List.length_cons]
    simp only [sweepCells] at ih
    rw [ih]
    ring

/-- The sweep succeeds with `trial_count ≠ 0` and yields one result per
cell of the Cartesian product of the two **sorted** input lists, in
that sorted order; the supplied orderings are preserved exactly when
the inputs were already sorted ascending. -/
lemma runSweep_spec (c : Cfg) (riskList : List ℚ) (tradesList : List ℤ)
    (u : ℕ → ℕ → ℕ → ℚ) (h : c.numSimulations ≠ 0) :
    ∃ l, runSweep c riskList tradesList u = some l ∧
      l.length = riskList.length * tradesList.length ∧
      l.map (fun r => (r.riskUsd, r.tradesPerDay)) =
        (sweepCells (riskList.insertionSort (· ≤ ·))
          (tradesList.insertionSort (· ≤ ·))).map
          (fun p => (p.1, p.2.toNat)) := by
  have hf : ∀ cell : ℕ × ℚ × ℤ,
      ∃ b, runMonteCarlo c cell.2.1 cell.2.2.toNat (u cell.1) = some b ∧
        (b.riskUsd, b.tradesPerDay) = (cell.2.1, cell.2.2.toNat) := by
    intro cell
    obtain ⟨r, hr, h1, h2⟩ := runMonteCarlo_fields c cell.2.1
      cell.2.2.toNat (u cell.1) h
    exact ⟨r, hr, by rw [h1, h2]⟩
  obtain ⟨bl, hbl, hmap, hlen⟩ := mapM_proj _ _ _ hf
    ((sweepCells (riskList.insertionSort (· ≤ ·))
      (tradesList.insertionSort (· ≤ ·))).enum)
  refine ⟨bl, hbl, ?_, ?_⟩
  · rw [hlen, List.enum_length, sweepCells_length]
    have h1 : (riskList.insertionSort (· ≤ ·)).length = riskList.length :=
      (List.perm_insertionSort _ _).length_eq
    have h2 : (tradesList.insertionSort (· ≤ ·)).length =
        tradesList.length :=
      (List.perm_insertionSort _ _).length_eq
    rw [h1, h2]
  · rw [hmap]
    have : (fun cell : ℕ × ℚ × ℤ => (cell.2.1, cell.2.2.toNat)) =
        (fun p : ℚ × ℤ => (p.1, p.2.toNat)) ∘ Prod.snd := rfl
    rw [this, ← List.map_map, List.enum_map_snd]

/-- Counterexample to C7 as stated: supplying the risk values in the
order `[200, 100]` yields result rows in risk order `[100, 200]` — the
handler sorts both lists (line 266) instead of preserving the supplied
ordering. -/
theorem C7_counterexample :
    (runSweep ⟨1000, 30, 500, 500, false, 1/2, 1, 0, 1, 1⟩ [200, 100] [1]
      (fun _ _ _ => 3/4)).map (fun l => l.map (fun r => r.riskUsd)) =
      some [100, 200] ∧
    [(100 : ℚ), 200] ≠ [200, 100] := by
  constructor
  · obtain ⟨l, hl, hlen, hmap⟩ := runSweep_spec
      ⟨1000, 30, 500, 500, false, 1/2, 1, 0, 1, 1⟩ [200, 100] [1]
      (fun _ _ _ => 3/4) (by norm_num)
    rw [hl]
    have hsortR : (([200, 100] : List ℚ).insertionSort (· ≤ ·)) =
        [100, 200] := by
      norm_num [List.insertionSort, List.orderedInsert]
    have hsortT : (([1] : List ℤ).insertionSort (· ≤ ·)) = [1] := rfl
    rw [hsortR, hsortT] at hmap
    have hcells : (sweepCells [(100 : ℚ), 200] [(1 : ℤ)]).map
        (fun p : ℚ × ℤ => (p.1, p.2.toNat)) = [(100, 1), (200, 1)] := rfl
    rw [hcells] at hmap
    have hfst : l.map (fun r => r.riskUsd) =
        (l.map (fun r => (r.riskUsd, r.tradesPerDay))).map Prod.fst := by
      rw [List.map_map]
      rfl
    simp only [Option.map_some']
    rw [hfst, hmap]
    rfl
  · intro hcon
    have := List.head_eq_of_cons_eq hcon
    norm_num at this

/-- C7 as amended: the handler produces exactly one `ScenarioResult`
per cell of the Cartesian product, but indexed by the **ascending
sorted** risk and trade lists (`risk_list.sort(); trades_list.sort()`,
line 266), not by the supplied order; the supplied orderings are
preserved exactly when the inputs are already sorted. -/
theorem C7_amended_sweep_sorted (c : Cfg) (riskList : List ℚ)
    (tradesList : List ℤ) (u : ℕ → ℕ → ℕ → ℚ)
    (h : c.numSimulations ≠ 0) :
    ∃ l, runSweep c riskList tradesList u = some l ∧
      l.length = riskList.length * tradesList.length ∧
      l.map (fun r => (r.riskUsd, r.tradesPerDay)) =
        (sweepCells (riskList.insertionSort (· ≤ ·))
          (tradesList.insertionSort (· ≤ ·))).map
          (fun p => (p.1, p.2.toNat)) ∧
      (List.Sorted (· ≤ ·) riskList → List.Sorted (· ≤ ·) tradesList →
        l.map (fun r => (r.riskUsd, r.tradesPerDay)) =
          (sweepCells riskList tradesList).map
            (fun p => (p.1, p.2.toNat))) := by
  obtain ⟨l, hl, hlen, hmap⟩ := runSweep_spec c riskList tradesList u h
  refine ⟨l, hl, hlen, hmap, ?_⟩
  intro hsR hsT
  rw [hmap, List.Sorted.insertionSort_eq hsR,
    List.Sorted.insertionSort_eq hsT]

/-- Witness for the amended C7 at a concrete input. -/
theorem C7_amended_sweep_sorted_witness :
    ((⟨1000, 30, 500, 500, false, 1/2, 1, 0, 1, 1⟩ : Cfg).numSimulations ≠
      0) ∧
    ∃ l, runSweep ⟨1000, 30, 500, 500, false, 1/2, 1, 0, 1, 1⟩ [200, 100]
        [1] (fun _ _ _ => 3/4) = some l ∧
      l.length = 2 ∧
      l.map (fun r => (r.riskUsd, r.tradesPerDay)) =
        (sweepCells ((([200, 100] : List ℚ)).insertionSort (· ≤ ·))
          ((([1] : List ℤ)).insertionSort (· ≤ ·))).map
          (fun p => (p.1, p.2.toNat)) := by
  have h0 : ((⟨1000, 30, 500, 500, false, 1/2, 1, 0, 1, 1⟩ :
      Cfg).numSimulations ≠ 0) := by norm_num
  obtain ⟨l, hl, hlen, hmap, _⟩ := C7_amended_sweep_sorted
    ⟨1000, 30, 500, 500, false, 1/2, 1, 0, 1, 1⟩ [200, 100] [1]
    (fun _ _ _ => 3/4) h0
  exact ⟨h0, l, hl, hlen, hmap⟩

/-! ### C8: no range validation at configuration time -/

/-- `runSweep` reused concrete configuration: 1 trial, 1 day. -/
def cfgS : Cfg := ⟨1000, 30, 500, 500, false, 1/2, 1, 0, 1, 1⟩

/-- With `trades_per_day = 0` the trade loop body never runs, so the
day loop always exhausts and the trial times out. -/
lemma runDays_tpd_zero (c : Cfg) (riskVal : ℚ) (u : ℕ → ℚ) :
    ∀ (n : ℕ) (s : TrialState), s.status = Status.inProgress →
    runDays c riskVal 0 u n s = (n, s)
  | 0, s, _ => rfl
  | n + 1, s, hs => by
    rw [runDays_succ]
    have hday : runDay c riskVal 0 u s = s := rfl
    rw [hday, if_neg (by simp [hs])]
    rw [runDays_tpd_zero c riskVal u n s hs]

lemma runTrial_tpd_zero (c : Cfg) (riskVal : ℚ) (u : ℕ → ℚ) :
    (runTrial c riskVal 0 u).outcome = Status.timeout := by
  show (if (runDays c riskVal 0 u c.maxDays (initState c)).2.status =
      Status.inProgress then Status.timeout
    else (runDays c riskVal 0 u c.maxDays (initState c)).2.status) =
    Status.timeout
  rw [runDays_tpd_zero c riskVal u c.maxDays (initState c) rfl]
  rfl

/-- With `trades_per_day = 0` every trial times out, so the aggregate
reports a 100% timeout rate (and the simulation plainly ran). -/
lemma runMonteCarlo_tpd_zero (c : Cfg) (riskVal : ℚ) (u : ℕ → ℕ → ℚ)
    (h : c.numSimulations ≠ 0) :
    ∃ r, runMonteCarlo c riskVal 0 u = some r ∧
      r.tradesPerDay = 0 ∧ r.timeoutRate = 100 := by
  unfold runMonteCarlo
  rw [if_neg h]
  refine ⟨_, rfl, rfl, ?_⟩
  show ((((List.range c.numSimulations).map
      (fun i => runTrial c riskVal 0 (u i))).filter
      (fun t => decide (t.outcome ≠ Status.passed ∧
        t.outcome ≠ Status.failed))).length : ℚ) /
      (c.numSimulations : ℚ) * 100 = 100
  have hall : ((List.range c.numSimulations).map
      (fun i => runTrial c riskVal 0 (u i))).filter
      (fun t => decide (t.outcome ≠ Status.passed ∧
        t.outcome ≠ Status.failed)) =
      (List.range c.numSimulations).map
        (fun i => runTrial c riskVal 0 (u i)) := by
    rw [List.filter_eq_self]
    intro t ht
    simp only [List.mem_map] at ht
    obtain ⟨i, _, rfl⟩ := ht
    rw [decide_eq_true_eq]
    rw [runTrial_tpd_zero c riskVal (u i)]
    exact ⟨by decide, by decide⟩
  rw [hall, List.length_map, List.length_range]
  have hn : (c.numSimulations : ℚ) ≠ 0 := Nat.cast_ne_zero.mpr h
  field_simp

/-- Counterexample to C8 as stated: the token `"0"` for trades-per-day
parses fine, no range validation exists anywhere, and the handler runs
the full sweep with `trades_per_day = 0` — a simulation is started with
a non-positive parameter and returns an all-Timeout result row instead
of being rejected at construction. -/
theorem C8_counterexample :
    parseTradesTokens ["0"] = some [0] ∧ ¬ (0 : ℤ) > 0 ∧
    (tab1Run cfgS [100] ["0"] (fun _ _ _ => 3/4)).map
      (Option.map (List.map (fun r => (r.tradesPerDay, r.timeoutRate)))) =
      some (some [(0, 100)]) := by
  have hparse : parseTradesTokens ["0"] = some [0] := by decide
  refine ⟨hparse, by decide, ?_⟩
  have htab : tab1Run cfgS [100] ["0"] (fun _ _ _ => 3/4) =
      some (runSweep cfgS [100] [0] (fun _ _ _ => 3/4)) := by
    unfold tab1Run
    rw [hparse, Option.map_some']
  rw [htab]
  obtain ⟨r, hr, htpd, hto⟩ := runMonteCarlo_tpd_zero cfgS 100
    (fun _ _ => 3/4) (by norm_num [cfgS])
  have hsweep : runSweep cfgS [100] [0] (fun _ _ _ => 3/4) = some [r] := by
    unfold runSweep
    have hsR : (([100] : List ℚ)).insertionSort (· ≤ ·) = [100] := rfl
    have hsT : (([0] : List ℤ)).insertionSort (· ≤ ·) = [0] := rfl
    rw [hsR, hsT]
    show List.mapM _ [(0, ((100 : ℚ), (0 : ℤ)))] = _
    rw [List.mapM_cons]
    show (runMonteCarlo cfgS 100 ((0 : ℤ)).toNat (fun _ _ => 3/4)).bind _ = _
    rw [show ((0 : ℤ)).toNat = 0 from rfl, hr]
    rfl
  rw [hsweep]
  simp only [Option.map_some', List.map_cons, List.map_nil, htpd, hto]

/-- C8 as amended: the handler performs no range validation — any
successfully parsed trades list reaches the sweep unchanged (only a
parse `ValueError` is caught); a trial with `trades_per_day = 0` runs
and times out rather than being rejected; and `trial_count = 0` fails
during aggregation (`ZeroDivisionError`, modelled `none`), not at
construction. -/
theorem C8_amended_no_range_validation :
    (∀ (c : Cfg) (riskList : List ℚ) (toks : List String)
        (tl : List ℤ) (u : ℕ → ℕ → ℕ → ℚ),
      parseTradesTokens toks = some tl →
      tab1Run c riskList toks u = some (runSweep c riskList tl u)) ∧
    (∀ (c : Cfg) (riskVal : ℚ) (u : ℕ → ℚ),
      (runTrial c riskVal 0 u).outcome = Status.timeout) ∧
    (∀ (c : Cfg) (riskVal : ℚ) (tpd : ℕ) (u : ℕ → ℕ → ℚ),
      c.numSimulations = 0 → runMonteCarlo c riskVal tpd u = none) := by
  refine ⟨?_, ?_, ?_⟩
  · intro c riskList toks tl u hparse
    unfold tab1Run
    rw [hparse, Option.map_some']
  · intro c riskVal u
    exact runTrial_tpd_zero c riskVal u
  · intro c riskVal tpd u h
    unfold runMonteCarlo
    rw [if_pos h]

/-- Witness for the amended C8 at concrete inputs. -/
theorem C8_amended_no_range_validation_witness :
    parseTradesTokens ["0"] = some [0] ∧
    tab1Run cfgS [100] ["0"] (fun _ _ _ => 3/4) =
      some (runSweep cfgS [100] [0] (fun _ _ _ => 3/4)) ∧
    (runTrial cfgS 100 0 (fun _ => 3/4)).outcome = Status.timeout ∧
    (⟨1000, 30, 500, 500, false, 1/2, 1, 0, 0, 1⟩ :
      Cfg).numSimulations = 0 ∧
    runMonteCarlo ⟨1000, 30, 500, 500, false, 1/2, 1, 0, 0, 1⟩ 100 1
      (fun _ _ => 3/4) = none := by
  have hparse : parseTradesTokens ["0"] = some [0] := by decide
  refine ⟨hparse,
    C8_amended_no_range_validation.1 cfgS [100] ["0"] [0]
      (fun _ _ _ => 3/4) hparse,
    C8_amended_no_range_validation.2.1 cfgS 100 (fun _ => 3/4),
    rfl,
    C8_amended_no_range_validation.2.2
      ⟨1000, 30, 500, 500, false, 1/2, 1, 0, 0, 1⟩ 100 1
      (fun _ _ => 3/4) rfl⟩

/-! ### C6: only one loss-streak percentile is computed -/

/-- Two-trial scenario for C6: account 1000, target 20, risk 10 at 2
trades/day over 3 days; trial 0 loses twice then wins four times
(Passed on day 3, max loss streak 2), trial 1 wins once then always
loses (Timeout, max loss streak 5). -/
def cfgB : Cfg := ⟨1000, 20, 500, 500, false, 1/2, 1, 0, 2, 3⟩

def drawsB : ℕ → ℕ → ℚ :=
  fun i j => if i = 0 then (if j < 2 then 3/4 else 1/4)
    else (if j = 0 then 1/4 else 3/4)

/-- Default result used to read the `Option` off. -/
def sr0 : ScenarioResult :=
  ⟨0, 0, 0, 0, 0, 0, 0, 0, 0, 0, 0, 0, 0, [], [], [], [], []⟩

set_option maxHeartbeats 2000000 in
lemma runTrial_cfgB_0 : runTrial cfgB 10 2 (drawsB 0) =
    ⟨Status.passed, 3, 20, 4, 2,
      [false, false, true, true, true, true]⟩ := by
  norm_num [runTrial, runDays, runDay, runTrades, tradeStep,
    checkExits, applyHwm, applyOutcome, initState, cfgB, drawsB,
    rewardPerTrade, personalLimitUsd]
  decide

set_option maxHeartbeats 2000000 in
lemma runTrial_cfgB_1 : runTrial cfgB 10 2 (drawsB 1) =
    ⟨Status.timeout, 3, -40, 1, 5,
      [true, false, false, false, false, false]⟩ := by
  norm_num [runTrial, runDays, runDay, runTrades, tradeStep,
    checkExits, applyHwm, applyOutcome, initState, cfgB, drawsB,
    rewardPerTrade, personalLimitUsd]

set_option maxHeartbeats 2000000 in
lemma runMonteCarlo_cfgB : runMonteCarlo cfgB 10 2 drawsB =
    some ⟨10, 1, 2, 50, 0, 50, 3, 3, 0, 0, 5/2, 7/2, 24/5,
      [(20, Status.passed), (-40, Status.timeout)], [3], [], [4, 1],
      [2, 5]⟩ := by
  unfold runMonteCarlo
  rw [if_neg (by norm_num [cfgB])]
  rw [show List.range cfgB.numSimulations = [0, 1] from by decide]
  simp only [List.map_cons, List.map_nil, runTrial_cfgB_0, runTrial_cfgB_1]
  rw [show List.filter (fun t => decide (t.outcome = Status.passed))
      [(⟨Status.passed, 3, 20, 4, 2,
          [false, false, true, true, true, true]⟩ : TrialRecord),
        ⟨Status.timeout, 3, -40, 1, 5,
          [true, false, false, false, false, false]⟩] =
      [⟨Status.passed, 3, 20, 4, 2,
        [false, false, true, true, true, true]⟩] from by decide]
  rw [show List.filter (fun t => decide (t.outcome = Status.failed))
      [(⟨Status.passed, 3, 20, 4, 2,
          [false, false, true, true, true, true]⟩ : TrialRecord),
        ⟨Status.timeout, 3, -40, 1, 5,
          [true, false, false, false, false, false]⟩] = [] from by decide]
  rw [show List.filter (fun t => decide (t.outcome ≠ Status.passed ∧
        t.outcome ≠ Status.failed))
      [(⟨Status.passed, 3, 20, 4, 2,
          [false, false, true, true, true, true]⟩ : TrialRecord),
        ⟨Status.timeout, 3, -40, 1, 5,
          [true, false, false, false, false, false]⟩] =
      [⟨Status.timeout, 3, -40, 1, 5,
        [true, false, false, false, false, false]⟩] from by decide]
  norm_num [cfgB, percentileL, medianL, pyRound1, List.insertionSort,
    List.orderedInsert, (show Int.toNat 0 = 0 from rfl)]

/-- Counterexample to C6 as stated: in a concrete two-trial scenario
the 95th-percentile max loss streak conditioned on Passed trials only
(as the spec defines it, computed here from the result's raw lists)
equals 2, yet no statistic field of the returned per-scenario result
carries that value — the aggregator computes a single loss-streak
percentile over all trials (`worst_case_95`, here 4.8) and nothing
conditioned on Passed trials. -/
theorem C6_counterexample :
    (runMonteCarlo cfgB 10 2 drawsB).isSome = true ∧
    specPassedLossStreak95 ((runMonteCarlo cfgB 10 2 drawsB).getD sr0) =
      2 ∧
    ((runMonteCarlo cfgB 10 2 drawsB).getD sr0).riskUsd ≠ 2 ∧
    ((runMonteCarlo cfgB 10 2 drawsB).getD sr0).riskPct ≠ 2 ∧
    ((runMonteCarlo cfgB 10 2 drawsB).getD sr0).passRate ≠ 2 ∧
    ((runMonteCarlo cfgB 10 2 drawsB).getD sr0).failRate ≠ 2 ∧
    ((runMonteCarlo cfgB 10 2 drawsB).getD sr0).timeoutRate ≠ 2 ∧
    ((runMonteCarlo cfgB 10 2 drawsB).getD sr0).avgDaysPass ≠ 2 ∧
    ((runMonteCarlo cfgB 10 2 drawsB).getD sr0).medianDaysPass ≠ 2 ∧
    ((runMonteCarlo cfgB 10 2 drawsB).getD sr0).avgDaysFail ≠ 2 ∧
    ((runMonteCarlo cfgB 10 2 drawsB).getD sr0).medianDaysFail ≠ 2 ∧
    ((runMonteCarlo cfgB 10 2 drawsB).getD sr0).avgMaxWinStreak ≠ 2 ∧
    ((runMonteCarlo cfgB 10 2 drawsB).getD sr0).avgMaxLossStreak ≠ 2 ∧
    ((runMonteCarlo cfgB 10 2 drawsB).getD sr0).worstCase95 ≠ 2 := by
  rw [runMonteCarlo_cfgB]
  simp only [Option.getD_some, Option.isSome_some]
  refine ⟨trivial, ?_, by norm_num, by norm_num, by norm_num, by norm_num,
    by norm_num, by norm_num, by norm_num, by norm_num, by norm_num,
    by norm_num, by norm_num, by norm_num⟩
  norm_num [specPassedLossStreak95, percentileL, List.insertionSort,
    List.orderedInsert, List.filter_cons, List.filter_nil,
    (show (Status.timeout = Status.passed) = False from by simp),
    (show Int.toNat 0 = 0 from rfl)]

/-- C6 as amended: the scenario aggregator computes exactly one
95th-percentile maximum loss streak, taken over **all** trials (the
`Worst Case Streak (95%)` field, wired to the per-trial max-loss-streak
list also returned raw), using linear interpolation between order
statistics (NumPy's default, pinned by the spec's regression fixture
`[0,1,1,2,2,2,3,5] ↦ 4.3`); no statistic conditioned on Passed trials
only is computed, although the raw lists would allow a caller to
derive one. -/
theorem C6_amended_single_percentile :
    (∀ (c : Cfg) (riskVal : ℚ) (tpd : ℕ) (u : ℕ → ℕ → ℚ),
      c.numSimulations ≠ 0 →
      ∃ r, runMonteCarlo c riskVal tpd u = some r ∧
        r.rawLossStreaks = ((List.range c.numSimulations).map
          (fun i => runTrial c riskVal tpd (u i))).map
            (fun t => t.maxLoss) ∧
        r.worstCase95 = pyRound1 (percentileL 95
          (r.rawLossStreaks.map (fun k => (k : ℚ))))) ∧
    percentileL 95 [0, 1, 1, 2, 2, 2, 3, 5] = 43 / 10 := by
  constructor
  · intro c riskVal tpd u h
    unfold runMonteCarlo
    rw [if_neg h]
    exact ⟨_, rfl, rfl, rfl⟩
  · norm_num [percentileL, List.insertionSort, List.orderedInsert,
      (show Int.toNat 6 = 6 from rfl)]

/-- Witness for the amended C6 at a concrete input. -/
theorem C6_amended_single_percentile_witness :
    cfgB.numSimulations ≠ 0 ∧
    ∃ r, runMonteCarlo cfgB 10 2 drawsB = some r ∧
      r.rawLossStreaks = ((List.range cfgB.numSimulations).map
        (fun i => runTrial cfgB 10 2 (drawsB i))).map
          (fun t => t.maxLoss) ∧
      r.worstCase95 = pyRound1 (percentileL 95
        (r.rawLossStreaks.map (fun k => (k : ℚ)))) := by
  have h0 : cfgB.numSimulations ≠ 0 := by norm_num [cfgB]
  exact ⟨h0, C6_amended_single_percentile.1 cfgB 10 2 drawsB h0⟩
